import Mathlib

/-!
# Lab3.cpp: the creature army (load, print, search, sort)

A shallow embedding of `src/Lab3.cpp`.

* `std::string` is a list of bytes (`CppString`), compared as `unsigned char`.
* `std::ostream` is a record of the bytes written so far together with the
  formatting state that `setfill`, `setw` and `std::left` change.
* `int` values (`count`, the enum codes) are `Int`; loop counters that start
  at `0` and only grow are `Nat`.
* `Creature*` into `Army::creatures` is the index of the pointed-to slot.
* The input file is the sequence of whitespace-delimited tokens that
  `operator>>` extracts from it; a file that cannot be opened is `none`.
* The `do ... while (swapped)` loop takes a fuel argument (number of passes
  it may run); the theorems show how much fuel is always enough.
-/

namespace Lab3

/-! ## Strings -/

/-- A `std::string`: its bytes, each read as `unsigned char`. -/
abbrev CppString := List Nat

/-- A string literal of the source (ASCII only). -/
def lit (s : String) : CppString := s.toList.map Char.toNat

/-- The call `a.compare(b)` of `std::string`: the first differing byte decides,
otherwise the shorter string is smaller. The sign is returned as -1, 0, 1. -/
def strCompare : CppString → CppString → Int
  | [], [] => 0
  | [], _ :: _ => -1
  | _ :: _, [] => 1
  | a :: as, b :: bs =>
    if a < b then -1 else if b < a then 1 else strCompare as bs

/-- The comparison `a > b` on `std::string`. -/
def strGt (a b : CppString) : Bool := decide (0 < strCompare a b)

/-- The C function `tolower` in the "C" locale. -/
def tolower (c : Nat) : Nat := if 65 ≤ c ∧ c ≤ 90 then c + 32 else c

/-- Search of `needle` in `s` starting at the head of `s`, which sits at
offset `pos` of the original string. -/
def findFrom : CppString → CppString → Nat → Option Nat
  | [], needle, pos => if needle.isPrefixOf [] then some pos else none
  | c :: cs, needle, pos =>
    if needle.isPrefixOf (c :: cs) then some pos else findFrom cs needle (pos + 1)

/-- The call `s.find(needle)`: offset of the first occurrence, `none` for
`std::string::npos`. -/
def find (s needle : CppString) : Option Nat := findFrom s needle 0

/-! ## Output streams -/

/-- The state of a `std::ostream`: bytes written, fill character,
whether `adjustfield` is `left`, and the pending field width. -/
structure OStream where
  out : List Nat := []
  fill : Nat := ' '.toNat
  adjustLeft : Bool := false
  width : Nat := 0
deriving DecidableEq, Repr

namespace OStream

/-- The manipulator `std::setfill(c)`. -/
def setfill (c : Nat) (os : OStream) : OStream := { os with fill := c }

/-- The manipulator `std::setw(n)`. -/
def setw (n : Nat) (os : OStream) : OStream := { os with width := n }

/-- The manipulator `std::left`. -/
def left (os : OStream) : OStream := { os with adjustLeft := true }

/-- Insertion `os << s` of a string: padded with the fill character up to the
pending width (after the text when left-adjusted, before it otherwise); the
width is reset to zero afterwards. -/
def put (s : CppString) (os : OStream) : OStream :=
  let pad := List.replicate (os.width - s.length) os.fill
  { os with
    out := os.out ++ (if os.adjustLeft then s ++ pad else pad ++ s)
    width := 0 }

end OStream

/-! ## Constants and enums -/

def MAX_CREATURES : Nat := 10
def MAX_NAME_LENGTH : Nat := 15
def MAX_TYPE_LENGTH : Nat := 15

/-- The codes of `enum MENU_OPTION`. -/
def PRINT : Int := 1
def SORT : Int := 2
def SEARCH : Int := 3
def EXIT : Int := 4

/-- The codes of `enum SORT_OPTION`. -/
def NAME : Int := 1
def TYPE : Int := 2
def BACK_TO_MAIN : Int := 3

/-! ## Creature -/

structure Creature where
  name : CppString := lit "Unknown"
  type : CppString := lit "Unknown"
deriving DecidableEq, Repr

instance : Inhabited Creature := ⟨{}⟩

namespace Creature

def getName (c : Creature) : CppString := c.name
def getType (c : Creature) : CppString := c.type

/-- Convert string to lowercase: `std::transform` with `::tolower`. -/
def toLower (str : CppString) : CppString := str.map tolower

/-- Check if a query matches the name or type. -/
def «matches» (c : Creature) (query : CppString) : Bool :=
  let qLower := toLower query
  (find (toLower c.name) qLower).isSome || (find (toLower c.type) qLower).isSome

/-- Display creature info: the two statements of `Creature::display`. -/
def display (c : Creature) (os : OStream) : OStream :=
  let os := os.setfill ' '.toNat
  let os := os.put (lit "| ")
  let os := os.left
  let os := os.setw MAX_NAME_LENGTH
  let os := os.put c.name
  let os := os.put (lit "| ")
  let os := os.setw MAX_TYPE_LENGTH
  let os := os.put c.type
  os.put (lit "|\n")

end Creature

/-! ## Army -/

/-- The loop `for (int i = 0; i < n; i++) body`, acting on a state. -/
def forLoop {σ : Type} (n : Int) (body : Nat → σ → σ) (s : σ) : σ :=
  (List.range n.toNat).foldl (fun s i => body i s) s

/-- The statement
`std::cout << std::setfill('-') << std::setw(35) << "-" << "\n";`. -/
def rule (os : OStream) : OStream :=
  let os := os.setfill '-'.toNat
  let os := os.setw 35
  let os := os.put (lit "-")
  os.put (lit "\n")

structure Army where
  creatures : List Creature := List.replicate MAX_CREATURES {}
  count : Int := 0
deriving DecidableEq, Repr

namespace Army

/-- The read `creatures[i]`. -/
def get (a : Army) (i : Nat) : Creature := a.creatures.getD i default

/-- The read loop of `loadFromFile`:
`while (file >> name >> type && count < MAX_CREATURES) creatures[count++] = ...`.
The extraction fails when fewer than two tokens are left. A write outside
the array has no defined behaviour and gives `none`. -/
def loadLoop : List CppString → Army → Option Army
  | name :: type :: rest, a =>
    if a.count < MAX_CREATURES then
      if 0 ≤ a.count ∧ a.count.toNat < a.creatures.length then
        loadLoop rest
          { creatures := a.creatures.set a.count.toNat { name := name, type := type }
            count := a.count + 1 }
      else none
    else some a
  | _, a => some a

/-- Load creatures from a file. `file` is `none` when the file cannot be
opened, otherwise its token sequence; the second stream is `std::cerr`. -/
def loadFromFile (file : Option (List CppString)) (filename : CppString)
    (a : Army) (cerr : OStream) : Option (Army × OStream) :=
  match file with
  | none =>
    let cerr := cerr.put (lit "Error opening file: ")
    let cerr := cerr.put filename
    let cerr := cerr.put (lit "\n")
    some (a, cerr)
  | some tokens => (loadLoop tokens a).map (fun a1 => (a1, cerr))

/-- Print all creatures in table format. -/
def printCreatures (a : Army) (os : OStream) : OStream :=
  let os := os.put (lit "\n")
  let os := rule os
  let os := os.setfill ' '.toNat
  let os := os.put (lit "| ")
  let os := os.left
  let os := os.setw MAX_NAME_LENGTH
  let os := os.put (lit "Name")
  let os := os.put (lit "| ")
  let os := os.setw MAX_TYPE_LENGTH
  let os := os.put (lit "Type")
  let os := os.put (lit "|\n")
  let os := rule os
  let os := forLoop a.count (fun i os => (a.get i).display os) os
  rule os

/-- The body of the loop of `searchCreature`; the state is the stream and
the flag `found`. -/
def searchBody (a : Army) (query : CppString) (i : Nat) (s : OStream × Bool) :
    OStream × Bool :=
  if (a.get i).«matches» query then ((a.get i).display s.1, true) else s

/-- Search creatures by partial name or type. -/
def searchCreature (query : CppString) (a : Army) (os : OStream) : OStream :=
  let os := os.put (lit "\nMatching Creatures:\n")
  let os := rule os
  let s := forLoop a.count (searchBody a query) (os, false)
  let os := if !s.2 then s.1.put (lit "No matching creatures found.\n") else s.1
  rule os

/-- The call `std::swap(p[i], p[j])` on the pointer array. -/
def swap (p : List Nat) (i j : Nat) : List Nat :=
  (p.set i (p.getD j 0)).set j (p.getD i 0)

/-- The flag `toSwap` computed for position `i` of the pointer array. -/
def toSwap (option : Int) (a : Army) (p : List Nat) (i : Nat) : Bool :=
  if option = NAME then
    strGt (a.get (p.getD i 0)).getName (a.get (p.getD (i + 1) 0)).getName
  else if option = TYPE then
    strGt (a.get (p.getD i 0)).getType (a.get (p.getD (i + 1) 0)).getType
  else false

/-- The body of the inner `for` loop of the bubble sort; the state is the
pointer array and the flag `swapped`. -/
def sortBody (option : Int) (a : Army) (i : Nat) (s : List Nat × Bool) :
    List Nat × Bool :=
  if toSwap option a s.1 i then (swap s.1 i (i + 1), true) else s

/-- One pass of the `do` body: `swapped = false` and the inner `for` loop. -/
def sortPass (option : Int) (a : Army) (p : List Nat) : List Nat × Bool :=
  forLoop (a.count - 1) (sortBody option a) (p, false)

/-- The loop `do ... while (swapped)`, running at most `fuel` passes. -/
def sortLoop (option : Int) (a : Army) : Nat → List Nat → Option (List Nat)
  | 0, _ => none
  | fuel + 1, p =>
    let s := sortPass option a p
    if s.2 then sortLoop option a fuel s.1 else some s.1

/-- The pointer array after its initialisation `pCreatures[i] = &creatures[i]`
for `i < count`: slot `i` points to `creatures[i]`. Only the initialised
slots are kept. -/
def initPointers (a : Army) : List Nat := List.range a.count.toNat

/-- The pointer array when the bubble sort loop is left. -/
def sortedPointers (fuel : Nat) (option : Int) (a : Army) : Option (List Nat) :=
  sortLoop option a fuel (initPointers a)

/-- Sort creatures using bubble sort and pointers, then print them. The
function is not `const`, so the army after the call is returned too. -/
def sortCreatures (fuel : Nat) (option : Int) (a : Army) (os : OStream) :
    Option (Army × OStream) :=
  match sortedPointers fuel option a with
  | none => none
  | some p =>
    let os := os.put (lit "\nSorted Creatures:\n")
    let os := rule os
    let os := forLoop a.count (fun i os => (a.get (p.getD i 0)).display os) os
    let os := rule os
    some (a, os)

end Army

/-! ## Sample data -/

/-- The tokens of the file `creatures.txt` of the sample run. -/
def sampleTokens : List CppString :=
  [lit "Dragon", lit "Flying", lit "Centaur", lit "Ground", lit "Parrot", lit "Flying"]

/-- The army of the sample run: Dragon, Centaur, Parrot loaded into a fresh army. -/
def sampleArmy : Army :=
  { creatures :=
      [⟨lit "Dragon", lit "Flying"⟩, ⟨lit "Centaur", lit "Ground"⟩,
       ⟨lit "Parrot", lit "Flying"⟩] ++ List.replicate 7 {}
    count := 3 }

/-! ## Definitions used to state the properties -/

/-- The comparison that `toSwap` makes between two pointers. -/
def ptrGt (option : Int) (a : Army) (x y : Nat) : Bool :=
  if option = NAME then strGt (a.get x).getName (a.get y).getName
  else if option = TYPE then strGt (a.get x).getType (a.get y).getType
  else false

/-- One pass written by recursion on the list: `x` is the element carried
along, the list holds the slots still to be visited. -/
def bubble (gt : Nat → Nat → Bool) : Nat → List Nat → List Nat × Bool
  | x, [] => ([x], false)
  | x, y :: r =>
    if gt x y then (y :: (bubble gt x r).1, true)
    else (x :: (bubble gt y r).1, (bubble gt y r).2)

/-- Number of pairs of positions that are out of order. -/
def inversions (gt : Nat → Nat → Bool) : List Nat → Nat
  | [] => 0
  | x :: xs => List.countP (gt x) xs + inversions gt xs

/-- The rule line: 35 dashes and a newline. -/
def ruleLine : CppString := List.replicate 35 '-'.toNat ++ lit "\n"

/-- The bytes that `display` appends to a stream with no pending width. -/
def Creature.row (c : Creature) : CppString := (c.display {}).out

/-- The rows of a sequence of creatures, one after the other. -/
def rows (l : List Creature) : CppString := (l.map Creature.row).flatten

/-- The creatures currently held: `creatures[0 .. count)`. -/
def Army.records (a : Army) : List Creature := a.creatures.take a.count.toNat

/-- The state of an `Army` object: the array has its `MAX_CREATURES` slots and
`count` lies between 0 and the capacity. -/
def Army.wellFormed (a : Army) : Prop :=
  a.creatures.length = MAX_CREATURES ∧ 0 ≤ a.count ∧ a.count ≤ MAX_CREATURES

/-- The field of a record that a sort option compares. -/
def sortKey (option : Int) (c : Creature) : CppString :=
  if option = NAME then c.getName else c.getType

/-- The (name, type) pairs that `file >> name >> type` extracts in turn from
a token sequence; a last token without a partner makes the extraction fail. -/
def pairs : List CppString → List Creature
  | name :: type :: rest => { name := name, type := type } :: pairs rest
  | _ => []

/-- The state `main` works on: its `Army` object and the two output streams. -/
structure Process where
  army : Army := {}
  cout : OStream := {}
  cerr : OStream := {}

/-- The calls that `main` makes on its `Army` object, with what each call
takes from outside (the file, the query, the sort option). -/
inductive Call where
  | loadFromFile (file : Option (List CppString)) (filename : CppString)
  | printCreatures
  | searchCreature (query : CppString)
  | sortCreatures (fuel : Nat) (option : Int)

/-- The effect of a call on the process. `printCreatures` and
`searchCreature` are `const` member functions: they write to `std::cout`
only. -/
def Call.run : Call → Process → Option Process
  | Call.loadFromFile file filename, s =>
    (s.army.loadFromFile file filename s.cerr).map
      (fun r => { s with army := r.1, cerr := r.2 })
  | Call.printCreatures, s => some { s with cout := s.army.printCreatures s.cout }
  | Call.searchCreature query, s =>
    some { s with cout := s.army.searchCreature query s.cout }
  | Call.sortCreatures fuel option, s =>
    (s.army.sortCreatures fuel option s.cout).map
      (fun r => { s with army := r.1, cout := r.2 })

/-- From the words of the specification: `lower` maps `A`-`Z` to `a`-`z` and
leaves other characters unchanged. -/
def specLower (s : CppString) : CppString :=
  s.map (fun c => if 'A'.toNat ≤ c ∧ c ≤ 'Z'.toNat then c - 'A'.toNat + 'a'.toNat else c)

/-- From the words of the specification: `upper` maps `a`-`z` to `A`-`Z`. -/
def specUpper (s : CppString) : CppString :=
  s.map (fun c => if 'a'.toNat ≤ c ∧ c ≤ 'z'.toNat then c - 'a'.toNat + 'A'.toNat else c)

/-- From the words of the specification: the lowercased query is a
contiguous substring of the lowercased name or of the lowercased type. -/
def specMatches (q : CppString) (r : Creature) : Prop :=
  List.IsInfix (specLower q) (specLower r.name) ∨
  List.IsInfix (specLower q) (specLower r.type)

instance (q : CppString) (r : Creature) : Decidable (specMatches q r) :=
  inferInstanceAs (Decidable (_ ∨ _))

/-! ## std::cin, the menus and main -/

/-- The state of `std::cin`: the bytes not yet read and whether `fail()`
holds. At the end of the input every extraction fails, so the end-of-file
bit needs no field of its own. -/
structure IStream where
  buf : List Nat := []
  failed : Bool := false
deriving DecidableEq, Repr

/-- The C function `isspace` in the "C" locale. -/
def isspace (c : Nat) : Bool := c == 32 || (9 ≤ c && c ≤ 13)

/-- The C function `isdigit`. -/
def isdigit (c : Nat) : Bool := 48 ≤ c && c ≤ 57

/-- The number that a run of decimal digits denotes. -/
def digitsValue (ds : List Nat) : Nat := ds.foldl (fun v c => 10 * v + (c - 48)) 0

namespace IStream

/-- The call `cin.fail()`. -/
def fail (is : IStream) : Bool := is.failed

/-- The call `cin.clear()`. -/
def clear (is : IStream) : IStream := { is with failed := false }

/-- The bytes left after `n` more bytes at most were discarded, the
delimiter being the last one discarded. -/
def ignoreBuf : Nat → Nat → List Nat → List Nat
  | 0, _, b => b
  | _ + 1, _, [] => []
  | n + 1, delim, c :: cs => if c = delim then cs else ignoreBuf n delim cs

/-- The call `cin.ignore(n, delim)`; it does nothing on a stream that is not
good. -/
def ignore (n delim : Nat) (is : IStream) : IStream :=
  if is.failed then is else { is with buf := ignoreBuf n delim is.buf }

/-- The extraction `cin >> choice` into an `int`: whitespace is skipped, then
an optional sign and the longest run of digits are read. The extraction
fails (`none`) on a stream that has already failed, at the end of the input,
when no digit is found and when the number does not fit an `int` of 32 bits.
What is stored in `choice` on failure is never read by the program. -/
def readInt (is : IStream) : IStream × Option Int :=
  if is.failed then (is, none)
  else
    match is.buf.dropWhile isspace with
    | [] => ({ buf := [], failed := true }, none)
    | c :: cs =>
      let body := if c = '-'.toNat ∨ c = '+'.toNat then cs else c :: cs
      let ds := body.takeWhile isdigit
      let rest := body.dropWhile isdigit
      if ds = [] then ({ buf := rest, failed := true }, none)
      else
        let v : Int := if c = '-'.toNat then - (digitsValue ds : Int) else digitsValue ds
        if - 2 ^ 31 ≤ v ∧ v ≤ 2 ^ 31 - 1 then ({ buf := rest, failed := false }, some v)
        else ({ buf := rest, failed := true }, none)

/-- The extraction `cin >> query` into a `std::string` that is empty before:
whitespace is skipped and the longest run of other bytes is read; on failure
the string stays empty. -/
def readString (is : IStream) : IStream × CppString :=
  if is.failed then (is, [])
  else
    match is.buf.dropWhile isspace with
    | [] => ({ buf := [], failed := true }, [])
    | c :: cs =>
      ({ buf := (c :: cs).dropWhile (fun b => !isspace b), failed := false },
       (c :: cs).takeWhile (fun b => !isspace b))

end IStream

/-- Function to display the main menu. -/
def displayMenu (cout : OStream) : OStream :=
  let cout := cout.put (lit "\nMenu:\n")
  let cout := cout.put (lit "1. Print Creatures\n")
  let cout := cout.put (lit "2. Sort Creatures\n")
  let cout := cout.put (lit "3. Search Creatures\n")
  let cout := cout.put (lit "4. Exit\n")
  cout.put (lit "Enter choice: ")

/-- Function to display the sort submenu and read the choice. The cast
`static_cast<SORT_OPTION>(choice)` keeps the number. -/
def displaySortMenu (cin : IStream) (cout : OStream) : Int × IStream × OStream :=
  let cout := cout.put (lit "\nSort Menu:\n")
  let cout := cout.put (lit "1. Sort by Name\n")
  let cout := cout.put (lit "2. Sort by Type\n")
  let cout := cout.put (lit "3. Go Back to Main Menu\n")
  let cout := cout.put (lit "Enter choice: ")
  let r := cin.readInt
  if r.1.fail then
    let cin := r.1.clear
    let cin := cin.ignore 10000 '\n'.toNat
    (BACK_TO_MAIN, cin, cout)
  else (r.2.getD 0, r.1, cout)

/-- The state of a run of `main`: the process and `std::cin`. -/
structure Run extends Process where
  cin : IStream := {}

/-- The body of the `do` loop of the SORT case of `main`; the second
component is `sortChoice`. -/
def sortMenuBody (sortFuel : Nat) (s : Run) : Option (Run × Int) :=
  let r := displaySortMenu s.cin s.cout
  let sortChoice := r.1
  let s := { s with cin := r.2.1, cout := r.2.2 }
  if sortChoice = NAME ∨ sortChoice = TYPE then
    (s.army.sortCreatures sortFuel sortChoice s.cout).map
      (fun x => ({ s with army := x.1, cout := x.2 }, sortChoice))
  else if sortChoice = BACK_TO_MAIN then
    some ({ s with cout := s.cout.put (lit "Returning to main menu...\n") }, sortChoice)
  else
    some ({ s with cout := s.cout.put (lit "Invalid choice. Try again.\n") }, sortChoice)

/-- The loop `do ... while (sortChoice != BACK_TO_MAIN)` of the SORT case,
running at most `fuel` times. -/
def sortMenuLoop (sortFuel : Nat) : Nat → Run → Option Run
  | 0, _ => none
  | fuel + 1, s =>
    match sortMenuBody sortFuel s with
    | none => none
    | some (s1, sortChoice) =>
      if sortChoice ≠ BACK_TO_MAIN then sortMenuLoop sortFuel fuel s1 else some s1

/-- What `main` does between `displayMenu()` and the `switch`: the read of
`choice` and the handling of a failed read. -/
def readChoice (s : Run) : Run × Int :=
  let r := s.cin.readInt
  if r.1.fail then
    let cin := r.1.clear
    let cin := cin.ignore 10000 '\n'.toNat
    let cout := s.cout.put (lit "Invalid input. Please enter a valid option.\n")
    ({ s with cin := cin, cout := cout }, 0)
  else ({ s with cin := r.1 }, r.2.getD 0)

/-- The body of the `do` loop of `main`; the second component is `choice`. -/
def mainBody (sortFuel menuFuel : Nat) (s : Run) : Option (Run × Int) :=
  let s := { s with cout := displayMenu s.cout }
  let r := readChoice s
  let s := r.1
  let choice := r.2
  if choice = PRINT then
    some ({ s with cout := s.army.printCreatures s.cout }, choice)
  else if choice = SORT then
    (sortMenuLoop sortFuel menuFuel s).map (fun s1 => (s1, choice))
  else if choice = SEARCH then
    let cout := s.cout.put (lit "Enter partial name or type to search: ")
    let q := s.cin.readString
    some ({ s with cin := q.1, cout := s.army.searchCreature q.2 cout }, choice)
  else if choice = EXIT then
    some ({ s with cout := s.cout.put (lit "Exiting program...\n") }, choice)
  else
    some ({ s with cout := s.cout.put (lit "Invalid choice. Try again.\n") }, choice)

/-- The loop `do ... while (choice != EXIT)` of `main`, running at most
`fuel` times. -/
def mainLoop (sortFuel menuFuel : Nat) : Nat → Run → Option Run
  | 0, _ => none
  | fuel + 1, s =>
    match mainBody sortFuel menuFuel s with
    | none => none
    | some (s1, choice) =>
      if choice ≠ EXIT then mainLoop sortFuel menuFuel fuel s1 else some s1

/-- Main function: `file` is the content of `creatures.txt` (`none` when it
cannot be opened), `input` the bytes on `std::cin`. The result is the value
returned and the final state. -/
def main (sortFuel menuFuel fuel : Nat) (file : Option (List CppString))
    (input : List Nat) : Option (Int × Run) :=
  match Army.loadFromFile file (lit "creatures.txt") {} {} with
  | none => none
  | some (army, cerr) =>
    match mainLoop sortFuel menuFuel fuel
        { army := army, cout := {}, cerr := cerr, cin := { buf := input } } with
    | none => none
    | some s => some (0, s)

/-- A sequence of calls on the `Army` object, one after the other. -/
def runCalls : List Call → Process → Option Process
  | [], s => some s
  | c :: cs, s =>
    match c.run s with
    | none => none
    | some s1 => runCalls cs s1

/-! ## The reference sort -/

/-- From the words of the specification: the comparison `key(a) <= key(b)`
of the reference sort, on the chosen field, for `std::string`. -/
def keyLe (option : Int) (c d : Creature) : Prop :=
  strCompare (sortKey option c) (sortKey option d) ≤ 0

instance (option : Int) : DecidableRel (keyLe option) :=
  fun c d => inferInstanceAs (Decidable (strCompare (sortKey option c) (sortKey option d) ≤ 0))

/-- From the words of the specification: a reference stable sort, here
insertion sort with the comparison `key(a) <= key(b)`. -/
def specStableSort (option : Int) (l : List Creature) : List Creature :=
  l.insertionSort (keyLe option)

/-- The order on slot indices that a stable sort by key realises: by key
first, by position among equal keys. -/
def idxLe (option : Int) (a : Army) (u v : Nat) : Prop :=
  strCompare (sortKey option (a.get u)) (sortKey option (a.get v)) < 0 ∨
  (strCompare (sortKey option (a.get u)) (sortKey option (a.get v)) = 0 ∧ u ≤ v)

instance (option : Int) (a : Army) : DecidableRel (idxLe option a) :=
  fun _ _ => inferInstanceAs (Decidable (_ ∨ _))

/-! ## The main menu -/

/-- The bytes of the main menu and its prompt, as `displayMenu` writes them. -/
def menuText : CppString :=
  lit "\nMenu:\n1. Print Creatures\n2. Sort Creatures\n3. Search Creatures\n4. Exit\nEnter choice: "

/-- From the words of the claim: a numeric input token, that is, an optional
sign followed by one or more decimal digits and nothing else. -/
def specNumeric (tok : CppString) : Bool :=
  match tok with
  | [] => false
  | c :: cs =>
    let body := if c = '-'.toNat ∨ c = '+'.toNat then cs else c :: cs
    !body.isEmpty && body.all isdigit

/-! ## The string order -/

theorem strCompare_self (a : CppString) : strCompare a a = 0 := by
  induction a with
  | nil => rfl
  | cons x xs ih => simp [strCompare, ih]

theorem strCompare_swap (a b : CppString) : strCompare b a = - strCompare a b := by
  induction a generalizing b with
  | nil => cases b <;> simp [strCompare]
  | cons x xs ih =>
    cases b with
    | nil => simp [strCompare]
    | cons y ys =>
      simp only [strCompare]
      split_ifs <;> first | omega | exact ih ys

theorem strCompare_eq_zero {a b : CppString} (h : strCompare a b = 0) : a = b := by
  induction a generalizing b with
  | nil => cases b <;> simp_all [strCompare]
  | cons x xs ih =>
    cases b with
    | nil => simp [strCompare] at h
    | cons y ys =>
      simp only [strCompare] at h
      split_ifs at h with h1 h2
      · omega
      · have hxy : x = y := by omega
        rw [hxy, ih h]

theorem strCompare_le_trans {a b c : CppString}
    (hab : strCompare a b ≤ 0) (hbc : strCompare b c ≤ 0) : strCompare a c ≤ 0 := by
  induction a generalizing b c with
  | nil => cases c <;> simp [strCompare]
  | cons x xs ih =>
    cases b with
    | nil => simp [strCompare] at hab
    | cons y ys =>
      cases c with
      | nil => simp [strCompare] at hbc
      | cons z zs =>
        simp only [strCompare] at hab hbc ⊢
        split_ifs at hab hbc ⊢ <;> first | omega | exact ih hab hbc

/-- The comparison of `std::string` is the lexicographic order of the bytes. -/
theorem strCompare_neg_iff_lex (a b : CppString) :
    strCompare a b < 0 ↔ List.Lex (· < ·) a b := by
  induction a generalizing b with
  | nil => cases b <;> simp [strCompare, List.Lex.nil]
  | cons x xs ih =>
    cases b with
    | nil => simp [strCompare]
    | cons y ys =>
      simp only [strCompare]
      split_ifs with h1 h2
      · simp [List.Lex.rel h1]
      · constructor
        · intro h; omega
        · intro h
          cases h with
          | cons h3 => omega
          | rel h3 => omega
      · have hxy : x = y := by omega
        subst hxy
        rw [ih ys]
        constructor
        · intro h; exact List.Lex.cons h
        · intro h
          cases h with
          | cons h3 => exact h3
          | rel h3 => omega

theorem strGt_iff (a b : CppString) : strGt a b = true ↔ 0 < strCompare a b := by
  simp [strGt]

theorem strGt_asymm {a b : CppString} (h : strGt a b = true) : strGt b a = false := by
  have h1 := (strGt_iff a b).1 h
  have h2 := strCompare_swap a b
  cases hb : strGt b a with
  | false => rfl
  | true => have h3 := (strGt_iff b a).1 hb; omega

/-! ## One pass of the bubble sort -/

theorem getD_mid (l r : List Nat) (x d : Nat) : (l ++ x :: r).getD l.length d = x := by
  induction l with
  | nil => rfl
  | cons h t ih => simpa using ih

theorem getD_mid_succ (l r : List Nat) (x y d : Nat) :
    (l ++ x :: y :: r).getD (l.length + 1) d = y := by
  induction l with
  | nil => rfl
  | cons h t ih => simpa using ih

theorem swap_mid (l r : List Nat) (x y : Nat) :
    Army.swap (l ++ x :: y :: r) l.length (l.length + 1) = l ++ y :: x :: r := by
  unfold Army.swap
  rw [getD_mid, getD_mid_succ]
  induction l with
  | nil => rfl
  | cons h t ih => simp [ih]

theorem toSwap_mid (option : Int) (a : Army) (l r : List Nat) (x y : Nat) :
    Army.toSwap option a (l ++ x :: y :: r) l.length = ptrGt option a x y := by
  unfold Army.toSwap ptrGt
  rw [getD_mid, getD_mid_succ]

theorem sortBody_mid (option : Int) (a : Army) (l r : List Nat) (x y : Nat) (sw : Bool) :
    Army.sortBody option a l.length (l ++ x :: y :: r, sw)
      = if ptrGt option a x y then (l ++ y :: x :: r, true) else (l ++ x :: y :: r, sw) := by
  simp only [Army.sortBody, toSwap_mid, swap_mid]

theorem sortBody_fold (option : Int) (a : Army) (r : List Nat) :
    ∀ (l : List Nat) (x : Nat) (sw : Bool),
      List.foldl (fun s i => Army.sortBody option a i s) (l ++ x :: r, sw)
          (List.range' l.length r.length)
        = (l ++ (bubble (ptrGt option a) x r).1,
           sw || (bubble (ptrGt option a) x r).2) := by
  induction r with
  | nil => intro l x sw; simp [bubble]
  | cons y r ih =>
    intro l x sw
    rw [List.length_cons, List.range'_succ, List.foldl_cons, sortBody_mid]
    by_cases h : ptrGt option a x y = true
    · have e : l ++ y :: x :: r = (l ++ [y]) ++ x :: r := by simp
      have e1 : l.length + 1 = (l ++ [y]).length := by simp
      rw [if_pos h, e, e1, ih]
      simp [bubble, h]
    · have e : l ++ x :: y :: r = (l ++ [x]) ++ y :: r := by simp
      have e1 : l.length + 1 = (l ++ [x]).length := by simp
      rw [if_neg h, e, e1, ih]
      simp [bubble, h]

theorem sortPass_nil (option : Int) (a : Army) (h : a.count.toNat = 0) :
    Army.sortPass option a [] = ([], false) := by
  have h1 : (a.count - 1).toNat = 0 := by omega
  simp [Army.sortPass, forLoop, h1]

theorem sortPass_cons (option : Int) (a : Army) (x : Nat) (r : List Nat)
    (h : (x :: r).length = a.count.toNat) :
    Army.sortPass option a (x :: r) = bubble (ptrGt option a) x r := by
  have h1 : (a.count - 1).toNat = r.length := by
    simp only [List.length_cons] at h; omega
  have h2 := sortBody_fold option a r [] x false
  simp only [List.nil_append, List.length_nil, Bool.false_or] at h2
  simp only [Army.sortPass, forLoop, h1, List.range_eq_range']
  exact h2

theorem bubble_cons_true {gt : Nat → Nat → Bool} {x y : Nat} (r : List Nat)
    (h : gt x y = true) : bubble gt x (y :: r) = (y :: (bubble gt x r).1, true) := by
  simp [bubble, h]

theorem bubble_cons_false {gt : Nat → Nat → Bool} {x y : Nat} (r : List Nat)
    (h : gt x y = false) :
    bubble gt x (y :: r) = (x :: (bubble gt y r).1, (bubble gt y r).2) := by
  simp [bubble, h]

theorem bubble_perm (gt : Nat → Nat → Bool) (r : List Nat) :
    ∀ x, List.Perm (bubble gt x r).1 (x :: r) := by
  induction r with
  | nil => intro x; simp [bubble]
  | cons y r ih =>
    intro x
    cases h : gt x y with
    | true =>
      rw [bubble_cons_true r h]
      exact ((ih x).cons y).trans (List.Perm.swap x y r)
    | false =>
      rw [bubble_cons_false r h]
      exact (ih y).cons x

theorem bubble_unswapped (gt : Nat → Nat → Bool) (r : List Nat) :
    ∀ x, (bubble gt x r).2 = false →
      (bubble gt x r).1 = x :: r ∧ List.Chain (fun u v => gt u v = false) x r := by
  induction r with
  | nil => intro x _; simp [bubble]
  | cons y r ih =>
    intro x hs
    cases h : gt x y with
    | true => rw [bubble_cons_true r h] at hs; simp at hs
    | false =>
      rw [bubble_cons_false r h] at hs ⊢
      obtain ⟨h1, h2⟩ := ih y hs
      exact ⟨by simp [h1], List.Chain.cons h h2⟩

theorem bubble_inversions (gt : Nat → Nat → Bool)
    (hasym : ∀ u v, gt u v = true → gt v u = false) (r : List Nat) :
    ∀ x, inversions gt (bubble gt x r).1 + (if (bubble gt x r).2 then 1 else 0)
      ≤ inversions gt (x :: r) := by
  induction r with
  | nil => intro x; simp [bubble, inversions]
  | cons y r ih =>
    intro x
    cases h : gt x y with
    | true =>
      have h1 := ih x
      have h2 := (bubble_perm gt r x).countP_eq (gt y)
      have h3 := hasym x y h
      rw [bubble_cons_true r h]
      simp only [inversions, List.countP_cons, h3, h] at h1 h2 ⊢
      split_ifs at h1 <;> simp at h2 ⊢ <;> omega
    | false =>
      have h1 := ih y
      have h2 := (bubble_perm gt r y).countP_eq (gt x)
      rw [bubble_cons_false r h]
      simp only [inversions, List.countP_cons, h] at h1 h2 ⊢
      split_ifs at h1 ⊢ <;> simp at h2 ⊢ <;> omega

theorem bubble_pairwise (gt : Nat → Nat → Bool) (R : Nat → Nat → Prop)
    (hR : ∀ u v, gt u v = true → R v u) (r : List Nat) :
    ∀ x, List.Pairwise R (x :: r) → List.Pairwise R (bubble gt x r).1 := by
  induction r with
  | nil => intro x _; simp [bubble]
  | cons y r ih =>
    intro x hp
    rw [List.pairwise_cons, List.pairwise_cons] at hp
    obtain ⟨hx, hy, hr⟩ := hp
    cases h : gt x y with
    | true =>
      rw [bubble_cons_true r h, List.pairwise_cons]
      refine ⟨?_, ih x ?_⟩
      · intro w hw
        have hw1 := (bubble_perm gt r x).mem_iff.1 hw
        rcases List.mem_cons.1 hw1 with e | e
        · rw [e]; exact hR x y h
        · exact hy w e
      · rw [List.pairwise_cons]
        exact ⟨fun w hw => hx w (List.mem_cons_of_mem _ hw), hr⟩
    | false =>
      rw [bubble_cons_false r h, List.pairwise_cons]
      refine ⟨?_, ih y ?_⟩
      · intro w hw
        exact hx w ((bubble_perm gt r y).mem_iff.1 hw)
      · rw [List.pairwise_cons]
        exact ⟨hy, hr⟩

theorem inversions_le (gt : Nat → Nat → Bool) (p : List Nat) :
    inversions gt p ≤ p.length * p.length := by
  induction p with
  | nil => simp [inversions]
  | cons x xs ih =>
    have h := List.countP_le_length (gt x) (l := xs)
    simp only [inversions, List.length_cons]
    nlinarith

theorem ptrGt_asymm (option : Int) (a : Army) (u v : Nat)
    (h : ptrGt option a u v = true) : ptrGt option a v u = false := by
  unfold ptrGt at h ⊢
  split_ifs at h ⊢ with h1 h2
  · exact strGt_asymm h
  · exact strGt_asymm h

/-- What one pass does to a pointer array that fills the `count` slots. -/
theorem sortPass_spec (option : Int) (a : Army) (p : List Nat)
    (h : p.length = a.count.toNat) :
    List.Perm (Army.sortPass option a p).1 p ∧
    ((Army.sortPass option a p).2 = false →
      (Army.sortPass option a p).1 = p ∧
      List.Chain' (fun u v => ptrGt option a u v = false) p) ∧
    inversions (ptrGt option a) (Army.sortPass option a p).1
        + (if (Army.sortPass option a p).2 then 1 else 0)
      ≤ inversions (ptrGt option a) p ∧
    (∀ R : Nat → Nat → Prop, (∀ u v, ptrGt option a u v = true → R v u) →
      List.Pairwise R p → List.Pairwise R (Army.sortPass option a p).1) := by
  cases p with
  | nil =>
    rw [sortPass_nil option a h.symm]
    simp [inversions]
  | cons x r =>
    rw [sortPass_cons option a x r h]
    refine ⟨bubble_perm _ r x, ?_, bubble_inversions _ (ptrGt_asymm option a) r x, ?_⟩
    · intro hs
      exact bubble_unswapped _ r x hs
    · intro R hR hp
      exact bubble_pairwise _ R hR r x hp

/-- The bubble sort loop leaves within `inversions + 1` passes, and what it
returns is a sorted rearrangement of the pointers that keeps every relation
which the swaps respect. -/
theorem sortLoop_spec (option : Int) (a : Army) :
    ∀ (fuel : Nat) (p : List Nat), p.length = a.count.toNat →
      inversions (ptrGt option a) p < fuel →
      ∃ q, Army.sortLoop option a fuel p = some q ∧ List.Perm q p ∧
        List.Chain' (fun u v => ptrGt option a u v = false) q ∧
        (∀ R : Nat → Nat → Prop, (∀ u v, ptrGt option a u v = true → R v u) →
          List.Pairwise R p → List.Pairwise R q) := by
  intro fuel
  induction fuel with
  | zero => intro p _ hf; omega
  | succ fuel ih =>
    intro p hlen hf
    obtain ⟨hperm, hun, hinv, hpw⟩ := sortPass_spec option a p hlen
    cases hs : (Army.sortPass option a p).2 with
    | true =>
      rw [hs] at hinv
      simp only [if_true] at hinv
      have hlen1 : (Army.sortPass option a p).1.length = a.count.toNat := by
        rw [hperm.length_eq, hlen]
      obtain ⟨q, hq, hqp, hqc, hqr⟩ := ih _ hlen1 (by omega)
      refine ⟨q, ?_, hqp.trans hperm, hqc, ?_⟩
      · simp only [Army.sortLoop, hs, if_true]
        exact hq
      · intro R hR hp
        exact hqr R hR (hpw R hR hp)
    | false =>
      obtain ⟨h1, h2⟩ := hun hs
      refine ⟨p, ?_, List.Perm.refl p, h2, fun _ _ hp => hp⟩
      simp [Army.sortLoop, hs, h1]

/-! ## What the statements write -/

theorem rule_eq (os : OStream) :
    rule os = { out := os.out ++ ruleLine, fill := '-'.toNat,
                adjustLeft := os.adjustLeft, width := 0 } := by
  cases hl : os.adjustLeft <;>
    simp [rule, OStream.put, OStream.setw, OStream.setfill, ruleLine, hl] <;> decide

theorem rule_out (os : OStream) : (rule os).out = os.out ++ ruleLine := by
  rw [rule_eq]

theorem put_out (s : CppString) (os : OStream) (hw : os.width = 0) :
    (os.put s).out = os.out ++ s := by
  simp [OStream.put, hw]

theorem display_eq (c : Creature) (os : OStream) (hw : os.width = 0) :
    c.display os = { out := os.out ++ c.row, fill := ' '.toNat,
                     adjustLeft := true, width := 0 } := by
  simp [Creature.display, Creature.row, OStream.put, OStream.setw, OStream.setfill,
    OStream.left, hw]

theorem display_fold (f : Nat → Creature) (l : List Nat) :
    ∀ os : OStream, os.width = 0 →
      (List.foldl (fun os i => (f i).display os) os l).out = os.out ++ rows (l.map f) ∧
      (List.foldl (fun os i => (f i).display os) os l).width = 0 := by
  induction l with
  | nil => intro os hw; simp [rows, hw]
  | cons i l ih =>
    intro os hw
    rw [List.foldl_cons]
    obtain ⟨h1, h2⟩ := ih ((f i).display os) (by rw [display_eq _ _ hw])
    refine ⟨?_, h2⟩
    rw [h1, display_eq _ _ hw]
    simp [rows]

theorem map_getD_range {α β : Type} (f : α → β) (d : α) (l : List α) :
    ∀ n, n ≤ l.length → (List.range n).map (fun i => f (l.getD i d)) = (l.take n).map f := by
  intro n
  induction n with
  | zero => intro _; simp
  | succ n ih =>
    intro hn
    have hlt : n < l.length := by omega
    rw [List.range_succ, List.map_append, ih (by omega), List.take_succ, List.map_append]
    simp [List.getD_eq_getElem?_getD, List.getElem?_eq_getElem hlt]

/-! ## sortCreatures -/

theorem ptrGt_eq_sortKey (option : Int) (a : Army) (hopt : option = NAME ∨ option = TYPE)
    (u v : Nat) :
    ptrGt option a u v = strGt (sortKey option (a.get u)) (sortKey option (a.get v)) := by
  rcases hopt with h | h <;> simp [ptrGt, sortKey, h, NAME, TYPE]

theorem sortedPointers_spec (fuel : Nat) (option : Int) (a : Army)
    (hfuel : a.count.toNat * a.count.toNat < fuel) :
    ∃ p, Army.sortedPointers fuel option a = some p ∧
      List.Perm p (List.range a.count.toNat) ∧
      List.Chain' (fun u v => ptrGt option a u v = false) p ∧
      List.Pairwise
        (fun u v => ptrGt option a u v = false → ptrGt option a v u = false → u < v) p := by
  have hlen : (Army.initPointers a).length = a.count.toNat := by
    simp [Army.initPointers]
  have hinv := inversions_le (ptrGt option a) (Army.initPointers a)
  rw [hlen] at hinv
  obtain ⟨q, hq, hperm, hchain, hpw⟩ :=
    sortLoop_spec option a fuel (Army.initPointers a) hlen (by omega)
  refine ⟨q, hq, hperm, hchain, hpw _ ?_ ?_⟩
  · intro u v huv _ hf
    rw [huv] at hf
    exact absurd hf (by simp)
  · have h := List.pairwise_lt_range a.count.toNat
    exact h.imp (fun hlt _ _ => hlt)

theorem sortCreatures_out (fuel : Nat) (option : Int) (a : Army) (os : OStream)
    (p : List Nat) (hp : Army.sortedPointers fuel option a = some p)
    (hlen : p.length = a.count.toNat) (hw : os.width = 0) :
    ∃ os1, Army.sortCreatures fuel option a os = some (a, os1) ∧
      os1.out = os.out ++ lit "\nSorted Creatures:\n" ++ ruleLine
        ++ rows (p.map a.get) ++ ruleLine := by
  simp only [Army.sortCreatures, hp, forLoop, rule_eq]
  refine ⟨_, rfl, ?_⟩
  have h := display_fold (fun i => a.get (p.getD i 0)) (List.range a.count.toNat)
    { out := (os.put (lit "\nSorted Creatures:\n")).out ++ ruleLine, fill := '-'.toNat,
      adjustLeft := (os.put (lit "\nSorted Creatures:\n")).adjustLeft, width := 0 } rfl
  have hm := map_getD_range a.get 0 p p.length (le_refl _)
  rw [List.take_length, hlen] at hm
  simp only [h.1, hm]
  simp [OStream.put, hw]

theorem ptrGt_of_key_eq (option : Int) (a : Army) (u v : Nat)
    (h : sortKey option (a.get u) = sortKey option (a.get v)) :
    ptrGt option a u v = false := by
  unfold ptrGt
  unfold sortKey at h
  split_ifs at h ⊢ with h1 h2
  · rw [h]; simp [strGt, strCompare_self]
  · rw [h]; simp [strGt, strCompare_self]
  · rfl

theorem before_of_pairwise {R : Nat → Nat → Prop} {x y : Nat} (hxy : x ≠ y)
    (hR : ¬ R y x) :
    ∀ p : List Nat, List.Pairwise R p → x ∈ p → y ∈ p →
      ∃ l1 l2 l3, p = l1 ++ x :: l2 ++ y :: l3 := by
  intro p
  induction p with
  | nil => intro _ hx; simp at hx
  | cons h t ih =>
    intro hp hx hy
    rw [List.pairwise_cons] at hp
    by_cases e : h = x
    · have hy1 : y ∈ t := by
        rcases List.mem_cons.1 hy with e1 | e1
        · exact absurd (e.symm.trans e1.symm).symm (fun e2 => hxy e2.symm)
        · exact e1
      obtain ⟨l2, l3, ht⟩ := List.append_of_mem hy1
      exact ⟨[], l2, l3, by simp [e, ht]⟩
    · have hx1 : x ∈ t := by
        rcases List.mem_cons.1 hx with e1 | e1
        · exact absurd e1.symm e
        · exact e1
      by_cases e2 : h = y
      · exact absurd (e2 ▸ hp.1 x hx1) hR
      · have hy1 : y ∈ t := by
          rcases List.mem_cons.1 hy with e1 | e1
          · exact absurd e1.symm e2
          · exact e1
        obtain ⟨l1, l2, l3, ht⟩ := ih hp.2 hx1 hy1
        exact ⟨h :: l1, l2, l3, by simp [ht]⟩

/-- C1: for the sort fields NAME and TYPE, `sortCreatures` leaves its loop
(within `count * count + 1` passes), prints the header, the rule, the rows of
the records in the order of the pointer array and the closing rule, and in
that order every record's key is at most the key of the record on the next
row: `compare` of `std::string` is not positive, that is, the next key is not
below it in the lexicographic order of the bytes. -/
theorem sortCreatures_nondecreasing (fuel : Nat) (option : Int) (a : Army) (os : OStream)
    (hopt : option = NAME ∨ option = TYPE)
    (hfuel : a.count.toNat * a.count.toNat < fuel) (hw : os.width = 0) :
    ∃ p os1, Army.sortedPointers fuel option a = some p ∧
      Army.sortCreatures fuel option a os = some (a, os1) ∧
      os1.out = os.out ++ lit "\nSorted Creatures:\n" ++ ruleLine
        ++ rows (p.map a.get) ++ ruleLine ∧
      List.Chain' (fun c d => strCompare (sortKey option c) (sortKey option d) ≤ 0)
        (p.map a.get) ∧
      List.Chain' (fun c d => ¬ List.Lex (· < ·) (sortKey option d) (sortKey option c))
        (p.map a.get) := by
  obtain ⟨p, hp, hperm, hchain, _⟩ := sortedPointers_spec fuel option a hfuel
  have hlen : p.length = a.count.toNat := by rw [hperm.length_eq, List.length_range]
  obtain ⟨os1, hrun, hout⟩ := sortCreatures_out fuel option a os p hp hlen hw
  have hle : List.Chain' (fun c d => strCompare (sortKey option c) (sortKey option d) ≤ 0)
      (p.map a.get) := by
    rw [List.chain'_map]
    refine hchain.imp ?_
    intro u v huv
    rw [ptrGt_eq_sortKey option a hopt] at huv
    have h := strGt_iff (sortKey option (a.get u)) (sortKey option (a.get v))
    rw [huv] at h
    simp at h
    exact h
  refine ⟨p, os1, hp, hrun, hout, hle, hle.imp ?_⟩
  intro c d hcd hlex
  have h1 := (strCompare_neg_iff_lex (sortKey option d) (sortKey option c)).2 hlex
  have h2 := strCompare_swap (sortKey option c) (sortKey option d)
  omega

/-- The sample run, sorted by name: Centaur, Dragon, Parrot. -/
theorem sortCreatures_nondecreasing_witness :
    (NAME = NAME ∨ NAME = TYPE) ∧
    sampleArmy.count.toNat * sampleArmy.count.toNat < 10 ∧
    (∃ p os1, Army.sortedPointers 10 NAME sampleArmy = some p ∧
      Army.sortCreatures 10 NAME sampleArmy {} = some (sampleArmy, os1) ∧
      os1.out = ({} : OStream).out ++ lit "\nSorted Creatures:\n" ++ ruleLine
        ++ rows (p.map sampleArmy.get) ++ ruleLine ∧
      List.Chain' (fun c d => strCompare (sortKey NAME c) (sortKey NAME d) ≤ 0)
        (p.map sampleArmy.get) ∧
      List.Chain' (fun c d => ¬ List.Lex (· < ·) (sortKey NAME d) (sortKey NAME c))
        (p.map sampleArmy.get)) ∧
    (Army.sortedPointers 10 NAME sampleArmy).map (List.map sampleArmy.get)
      = some [⟨lit "Centaur", lit "Ground"⟩, ⟨lit "Dragon", lit "Flying"⟩,
              ⟨lit "Parrot", lit "Flying"⟩] :=
  ⟨Or.inl rfl, by decide,
   sortCreatures_nondecreasing 10 NAME sampleArmy {} (Or.inl rfl) (by decide) rfl,
   by decide⟩

/-- C2: `sortCreatures` is stable: when two slots `x < y` of the collection
hold records with equal keys, the pointer to slot `x` stands before the
pointer to slot `y` in the sorted pointer array, whose order is the order of
the printed rows. -/
theorem sortCreatures_stable (fuel : Nat) (option : Int) (a : Army) (os : OStream)
    (hfuel : a.count.toNat * a.count.toNat < fuel) (hw : os.width = 0) :
    ∃ p os1, Army.sortedPointers fuel option a = some p ∧
      Army.sortCreatures fuel option a os = some (a, os1) ∧
      os1.out = os.out ++ lit "\nSorted Creatures:\n" ++ ruleLine
        ++ rows (p.map a.get) ++ ruleLine ∧
      ∀ x y : Nat, x < y → (y : Int) < a.count →
        sortKey option (a.get x) = sortKey option (a.get y) →
        ∃ l1 l2 l3, p = l1 ++ x :: l2 ++ y :: l3 := by
  obtain ⟨p, hp, hperm, _, hpw⟩ := sortedPointers_spec fuel option a hfuel
  have hlen : p.length = a.count.toNat := by rw [hperm.length_eq, List.length_range]
  obtain ⟨os1, hrun, hout⟩ := sortCreatures_out fuel option a os p hp hlen hw
  refine ⟨p, os1, hp, hrun, hout, ?_⟩
  intro x y hxy hy hkey
  have hy1 : y ∈ p := hperm.mem_iff.2 (List.mem_range.2 (by omega))
  have hx1 : x ∈ p := hperm.mem_iff.2 (List.mem_range.2 (by omega))
  refine before_of_pairwise (by omega) ?_ p hpw hx1 hy1
  intro hR
  have h := hR (ptrGt_of_key_eq option a y x hkey.symm) (ptrGt_of_key_eq option a x y hkey)
  omega

/-- The sample run, sorted by type: Dragon stays before Parrot. -/
theorem sortCreatures_stable_witness :
    sampleArmy.count.toNat * sampleArmy.count.toNat < 10 ∧
    (∃ p os1, Army.sortedPointers 10 TYPE sampleArmy = some p ∧
      Army.sortCreatures 10 TYPE sampleArmy {} = some (sampleArmy, os1) ∧
      os1.out = ({} : OStream).out ++ lit "\nSorted Creatures:\n" ++ ruleLine
        ++ rows (p.map sampleArmy.get) ++ ruleLine ∧
      ∀ x y : Nat, x < y → (y : Int) < sampleArmy.count →
        sortKey TYPE (sampleArmy.get x) = sortKey TYPE (sampleArmy.get y) →
        ∃ l1 l2 l3, p = l1 ++ x :: l2 ++ y :: l3) ∧
    (Army.sortedPointers 10 TYPE sampleArmy).map (List.map sampleArmy.get)
      = some [⟨lit "Dragon", lit "Flying"⟩, ⟨lit "Parrot", lit "Flying"⟩,
              ⟨lit "Centaur", lit "Ground"⟩] :=
  ⟨by decide, sortCreatures_stable 10 TYPE sampleArmy {} (by decide) rfl, by decide⟩

theorem records_eq_map_range (a : Army) (hwf : a.wellFormed) :
    a.records = (List.range a.count.toNat).map a.get := by
  obtain ⟨h1, h2, h3⟩ := hwf
  have h := map_getD_range (fun c : Creature => c) default a.creatures a.count.toNat
    (by rw [h1]; omega)
  rw [List.map_id'] at h
  rw [Army.records, ← h]
  rfl

/-- C3: the records that `sortCreatures` prints are a rearrangement of the
records held: the sorted pointer array holds every slot index below `count`
exactly once, there are `count` rows, and every record is printed as often
as it is stored. -/
theorem sortCreatures_perm (fuel : Nat) (option : Int) (a : Army) (os : OStream)
    (hwf : a.wellFormed)
    (hfuel : a.count.toNat * a.count.toNat < fuel) (hw : os.width = 0) :
    ∃ p os1, Army.sortedPointers fuel option a = some p ∧
      Army.sortCreatures fuel option a os = some (a, os1) ∧
      os1.out = os.out ++ lit "\nSorted Creatures:\n" ++ ruleLine
        ++ rows (p.map a.get) ++ ruleLine ∧
      List.Perm p (List.range a.count.toNat) ∧
      List.Perm (p.map a.get) a.records ∧
      ((p.map a.get).length : Int) = a.count ∧
      ∀ c : Creature, List.count c (p.map a.get) = List.count c a.records := by
  obtain ⟨p, hp, hperm, _, _⟩ := sortedPointers_spec fuel option a hfuel
  have hlen : p.length = a.count.toNat := by rw [hperm.length_eq, List.length_range]
  obtain ⟨os1, hrun, hout⟩ := sortCreatures_out fuel option a os p hp hlen hw
  have hrec : List.Perm (p.map a.get) a.records := by
    rw [records_eq_map_range a hwf]
    exact hperm.map a.get
  refine ⟨p, os1, hp, hrun, hout, hperm, hrec, ?_, fun c => hrec.count_eq c⟩
  have h0 := hwf.2.1
  rw [List.length_map, hlen]
  omega

/-- The sample army is well formed and its three records are all printed. -/
theorem sortCreatures_perm_witness :
    sampleArmy.wellFormed ∧
    sampleArmy.count.toNat * sampleArmy.count.toNat < 10 ∧
    ∃ p os1, Army.sortedPointers 10 NAME sampleArmy = some p ∧
      Army.sortCreatures 10 NAME sampleArmy {} = some (sampleArmy, os1) ∧
      os1.out = ({} : OStream).out ++ lit "\nSorted Creatures:\n" ++ ruleLine
        ++ rows (p.map sampleArmy.get) ++ ruleLine ∧
      List.Perm p (List.range sampleArmy.count.toNat) ∧
      List.Perm (p.map sampleArmy.get) sampleArmy.records ∧
      ((p.map sampleArmy.get).length : Int) = sampleArmy.count ∧
      ∀ c : Creature, List.count c (p.map sampleArmy.get) = List.count c sampleArmy.records :=
  ⟨by simp [Army.wellFormed, sampleArmy, MAX_CREATURES], by decide,
   sortCreatures_perm 10 NAME sampleArmy {}
     (by simp [Army.wellFormed, sampleArmy, MAX_CREATURES]) (by decide) rfl⟩

/-! ## loadFromFile -/

theorem pairs_length (t : List CppString) : (pairs t).length = t.length / 2 := by
  induction t using pairs.induct with
  | case1 name type rest ih =>
    simp only [pairs, List.length_cons, ih]
    omega
  | case2 t h =>
    cases t with
    | nil => simp [pairs]
    | cons x t1 =>
      cases t1 with
      | nil => simp [pairs]
      | cons y t2 => exact (h x y t2 rfl).elim

theorem pairs_getElem? (t : List CppString) :
    ∀ (i : Nat) (c : Creature), (pairs t)[i]? = some c →
      t[2 * i]? = some c.name ∧ t[2 * i + 1]? = some c.type := by
  induction t using pairs.induct with
  | case1 name type rest ih =>
    intro i c h
    cases i with
    | zero =>
      simp only [pairs, List.getElem?_cons_zero, Option.some.injEq] at h
      subst h
      simp
    | succ k =>
      simp only [pairs, List.getElem?_cons_succ] at h
      have e1 : 2 * (k + 1) = (2 * k + 1) + 1 := by omega
      rw [e1]
      simp only [List.getElem?_cons_succ]
      exact ih k c h
  | case2 t h =>
    intro i c hc
    cases t with
    | nil => simp [pairs] at hc
    | cons x t1 =>
      cases t1 with
      | nil => simp [pairs] at hc
      | cons y t2 => exact (h x y t2 rfl).elim

theorem take_succ_set {α : Type} (c : α) (l : List α) :
    ∀ n, n < l.length → (l.set n c).take (n + 1) = l.take n ++ [c] := by
  induction l with
  | nil => intro n h; simp at h
  | cons x xs ih =>
    intro n h
    cases n with
    | zero => simp
    | succ k =>
      simp only [List.length_cons, Nat.add_lt_add_iff_right] at h
      simp [ih k h]

theorem records_length (a : Army) (hwf : a.wellFormed) :
    a.records.length = a.count.toNat := by
  obtain ⟨h1, h2, h3⟩ := hwf
  simp only [Army.records, List.length_take, h1]
  omega

theorem records_getElem? (a : Army) (hwf : a.wellFormed) (i : Nat)
    (hi : i < a.count.toNat) : a.records[i]? = some (a.get i) := by
  rw [records_eq_map_range a hwf]
  simp [hi]

/-- The read loop on a well-formed army: it returns (no write leaves the
array), the army stays well formed, and the records held afterwards are
those held before followed by the extracted pairs, as far as the free slots
reach. -/
theorem loadLoop_spec (tokens : List CppString) (a : Army) :
    a.wellFormed →
    ∃ a1, Army.loadLoop tokens a = some a1 ∧ a1.wellFormed ∧
      a1.records = a.records ++ (pairs tokens).take (MAX_CREATURES - a.count.toNat) := by
  induction tokens, a using Army.loadLoop.induct with
  | case1 name type rest a h1 h2 ih =>
    intro hwf
    obtain ⟨w1, w2, w3⟩ := hwf
    have hwf1 : Army.wellFormed
        { creatures := a.creatures.set a.count.toNat { name := name, type := type },
          count := a.count + 1 } := by
      refine ⟨?_, ?_, ?_⟩
      · simp [w1]
      · show 0 ≤ a.count + 1
        omega
      · show a.count + 1 ≤ MAX_CREATURES
        omega
    obtain ⟨a1, hl, hw, hr⟩ := ih hwf1
    refine ⟨a1, ?_, hw, ?_⟩
    · simp only [Army.loadLoop, h1, h2, if_true, and_self]
      exact hl
    · rw [hr]
      have e1 : (a.count + 1).toNat = a.count.toNat + 1 := by omega
      have e2 : MAX_CREATURES - a.count.toNat
          = (MAX_CREATURES - (a.count.toNat + 1)) + 1 := by
        have : a.count.toNat < MAX_CREATURES := by omega
        omega
      simp only [Army.records, e1]
      rw [take_succ_set _ _ _ h2.2, e2]
      simp [pairs]
  | case2 name type rest a h1 h2 =>
    intro hwf
    obtain ⟨w1, w2, w3⟩ := hwf
    exfalso
    apply h2
    refine ⟨w2, ?_⟩
    rw [w1]
    omega
  | case3 name type rest a h1 =>
    intro hwf
    refine ⟨a, ?_, hwf, ?_⟩
    · simp [Army.loadLoop, h1]
    · have e : MAX_CREATURES - a.count.toNat = 0 := by omega
      simp [e]
  | case4 t a h =>
    intro hwf
    cases t with
    | nil => exact ⟨a, by simp [Army.loadLoop], hwf, by simp [pairs]⟩
    | cons x t1 =>
      cases t1 with
      | nil => exact ⟨a, by simp [Army.loadLoop], hwf, by simp [pairs]⟩
      | cons y t2 => exact (h x y t2 rfl).elim

theorem wellFormed_fresh : Army.wellFormed {} := by
  simp [Army.wellFormed, MAX_CREATURES]

/-- C4: loading a token sequence into a fresh army returns, `std::cerr` is
untouched, `count` is the number of complete pairs capped at
`MAX_CREATURES`, and record `i` below `count` has name `tokens[2 i]` and
type `tokens[2 i + 1]`. -/
theorem loadFromFile_pairs (tokens : List CppString) (filename : CppString) (cerr : OStream) :
    ∃ a, Army.loadFromFile (some tokens) filename {} cerr = some (a, cerr) ∧
      a.wellFormed ∧
      a.count = ((min (tokens.length / 2) MAX_CREATURES : Nat) : Int) ∧
      ∀ i : Nat, (i : Int) < a.count →
        tokens[2 * i]? = some (a.get i).name ∧ tokens[2 * i + 1]? = some (a.get i).type := by
  obtain ⟨a, hl, hw, hr⟩ := loadLoop_spec tokens {} wellFormed_fresh
  have hr1 : a.records = (pairs tokens).take MAX_CREATURES := by
    rw [hr]
    simp [Army.records]
  have hlen := records_length a hw
  rw [hr1, List.length_take, pairs_length] at hlen
  have hc : a.count = ((min (tokens.length / 2) MAX_CREATURES : Nat) : Int) := by
    have h0 := hw.2.1
    rw [Nat.min_comm]
    omega
  refine ⟨a, by simp [Army.loadFromFile, hl], hw, hc, ?_⟩
  intro i hi
  have hi1 : i < a.count.toNat := by omega
  have hg := records_getElem? a hw i hi1
  rw [hr1, List.getElem?_take] at hg
  have hi2 : i < MAX_CREATURES := by
    have := hw.2.2
    omega
  rw [if_pos hi2] at hg
  exact pairs_getElem? tokens i _ hg

/-! ## The invariant of the army -/

theorem sortCreatures_army (fuel : Nat) (option : Int) (a a1 : Army) (os os1 : OStream)
    (h : Army.sortCreatures fuel option a os = some (a1, os1)) : a1 = a := by
  unfold Army.sortCreatures at h
  cases hp : Army.sortedPointers fuel option a with
  | none => rw [hp] at h; simp at h
  | some p =>
    rw [hp] at h
    simp only [Option.some.injEq, Prod.mk.injEq] at h
    exact h.1.symm

theorem sortCreatures_returns (fuel : Nat) (option : Int) (a : Army) (os : OStream)
    (hfuel : a.count.toNat * a.count.toNat < fuel) :
    ∃ os1, Army.sortCreatures fuel option a os = some (a, os1) := by
  obtain ⟨p, hp, _⟩ := sortedPointers_spec fuel option a hfuel
  simp [Army.sortCreatures, hp]

/-- C5: `0 <= count <= MAX_CREATURES` (with the array keeping its
`MAX_CREATURES` slots) holds for a fresh army; every call that returns keeps
it; and on a state that satisfies it every call returns, for the bubble sort
given fuel above `count * count`. A write outside the array makes the model
of `loadFromFile` return nothing, so the last part says that every write
`creatures[count++]` is inside the array. -/
theorem count_invariant :
    Army.wellFormed {} ∧
    (∀ (c : Call) (s s1 : Process), s.army.wellFormed → c.run s = some s1 →
      s1.army.wellFormed) ∧
    (∀ (c : Call) (s : Process), s.army.wellFormed →
      (∀ fuel option, c = Call.sortCreatures fuel option →
        s.army.count.toNat * s.army.count.toNat < fuel) →
      ∃ s1, c.run s = some s1) := by
  refine ⟨wellFormed_fresh, ?_, ?_⟩
  · intro c s s1 hwf hrun
    cases c with
    | loadFromFile file filename =>
      cases file with
      | none =>
        simp only [Call.run, Army.loadFromFile, Option.map_some', Option.some.injEq] at hrun
        rw [← hrun]
        exact hwf
      | some tokens =>
        obtain ⟨a1, hl, hw, _⟩ := loadLoop_spec tokens s.army hwf
        simp only [Call.run, Army.loadFromFile, hl, Option.map_some', Option.some.injEq] at hrun
        rw [← hrun]
        exact hw
    | printCreatures =>
      simp only [Call.run, Option.some.injEq] at hrun
      rw [← hrun]
      exact hwf
    | searchCreature query =>
      simp only [Call.run, Option.some.injEq] at hrun
      rw [← hrun]
      exact hwf
    | sortCreatures fuel option =>
      simp only [Call.run] at hrun
      cases hs : Army.sortCreatures fuel option s.army s.cout with
      | none => rw [hs] at hrun; simp at hrun
      | some r =>
        rw [hs] at hrun
        simp only [Option.map_some', Option.some.injEq] at hrun
        have e := sortCreatures_army fuel option s.army r.1 s.cout r.2 hs
        rw [← hrun]
        show r.1.wellFormed
        rw [e]
        exact hwf
  · intro c s hwf hfuel
    cases c with
    | loadFromFile file filename =>
      cases file with
      | none => simp [Call.run, Army.loadFromFile]
      | some tokens =>
        obtain ⟨a1, hl, _, _⟩ := loadLoop_spec tokens s.army hwf
        simp [Call.run, Army.loadFromFile, hl]
    | printCreatures => simp [Call.run]
    | searchCreature query => simp [Call.run]
    | sortCreatures fuel option =>
      obtain ⟨os1, h⟩ := sortCreatures_returns fuel option s.army s.cout (hfuel fuel option rfl)
      simp [Call.run, h]

/-- A second load, onto the populated sample army, returns and keeps the
invariant. -/
theorem count_invariant_witness :
    sampleArmy.wellFormed ∧
    ∃ s1, Call.run (Call.loadFromFile (some sampleTokens) (lit "creatures.txt"))
        { army := sampleArmy } = some s1 ∧ s1.army.wellFormed := by
  have hwf : sampleArmy.wellFormed := by simp [Army.wellFormed, sampleArmy, MAX_CREATURES]
  obtain ⟨s1, h⟩ := count_invariant.2.2
    (Call.loadFromFile (some sampleTokens) (lit "creatures.txt")) { army := sampleArmy } hwf
    (by intro fuel option h; cases h)
  exact ⟨hwf, s1, h, count_invariant.2.1 _ _ s1 hwf h⟩

/-! ## printCreatures -/

theorem printCreatures_out (a : Army) (os : OStream) (hwf : a.wellFormed)
    (hw : os.width = 0) :
    (a.printCreatures os).out = os.out ++ lit "\n" ++ ruleLine
      ++ lit "| Name           | Type           |\n" ++ ruleLine
      ++ rows a.records ++ ruleLine := by
  have hd : ∀ os0 : OStream, os0.width = 0 →
      (forLoop a.count (fun i os => (a.get i).display os) os0).out
        = os0.out ++ rows a.records := by
    intro os0 h0
    rw [records_eq_map_range a hwf]
    exact (display_fold a.get (List.range a.count.toNat) os0 h0).1
  simp only [Army.printCreatures, rule_eq]
  rw [hd _ rfl]
  simp only [OStream.put, OStream.setw, OStream.setfill, OStream.left, hw, MAX_NAME_LENGTH,
    MAX_TYPE_LENGTH]
  have hN : (lit "Name").length = 4 := by decide
  have hT : (lit "Type").length = 4 := by decide
  have e3 : lit "| Name           | Type           |\n"
      = lit "| " ++ (lit "Name" ++ (List.replicate 11 32 ++ (lit "| " ++ (lit "Type"
        ++ (List.replicate 11 32 ++ lit "|\n"))))) := by decide
  simp [hN, hT, e3]

/-- C6: when the file cannot be opened, `loadFromFile` writes the error line
to `std::cerr` and returns the army as it was; for the fresh army of `main`
that is `count = 0` and no records, and `printCreatures` then writes the
blank line, the rule, the header row, the rule and the closing rule, with
nothing between the last two. -/
theorem loadFromFile_unopened (filename : CppString) (cerr os : OStream)
    (hcerr : cerr.width = 0) (hw : os.width = 0) :
    ∃ a cerr1, Army.loadFromFile none filename {} cerr = some (a, cerr1) ∧
      cerr1.out = cerr.out ++ lit "Error opening file: " ++ filename ++ lit "\n" ∧
      a.count = 0 ∧ a.records = [] ∧
      (a.printCreatures os).out = os.out ++ lit "\n" ++ ruleLine
        ++ lit "| Name           | Type           |\n" ++ ruleLine ++ ruleLine := by
  refine ⟨{}, _, rfl, ?_, rfl, rfl, ?_⟩
  · simp [OStream.put, hcerr]
  · rw [printCreatures_out {} os wellFormed_fresh hw]
    simp [Army.records, rows]

/-- The run of `main` without a file `creatures.txt`, on fresh streams. -/
theorem loadFromFile_unopened_witness :
    ({} : OStream).width = 0 ∧
    ∃ a cerr1, Army.loadFromFile none (lit "creatures.txt") {} {} = some (a, cerr1) ∧
      cerr1.out = ({} : OStream).out ++ lit "Error opening file: "
        ++ lit "creatures.txt" ++ lit "\n" ∧
      a.count = 0 ∧ a.records = [] ∧
      (a.printCreatures {}).out = ({} : OStream).out ++ lit "\n" ++ ruleLine
        ++ lit "| Name           | Type           |\n" ++ ruleLine ++ ruleLine :=
  ⟨rfl, loadFromFile_unopened (lit "creatures.txt") {} {} rfl rfl⟩

/-- C7: on a well-formed army `printCreatures` writes the blank line, the
rule, the header row and the rule, then the rows of the records
`creatures[0 .. count)` in load order, then the closing rule; there are
`count` such records and the `i`-th is `creatures[i]`. -/
theorem printCreatures_rows (a : Army) (os : OStream) (hwf : a.wellFormed)
    (hw : os.width = 0) :
    (a.printCreatures os).out = os.out ++ lit "\n" ++ ruleLine
      ++ lit "| Name           | Type           |\n" ++ ruleLine
      ++ rows a.records ++ ruleLine ∧
    (a.records.length : Int) = a.count ∧
    ∀ i : Nat, (i : Int) < a.count → a.records[i]? = some (a.get i) := by
  refine ⟨printCreatures_out a os hwf hw, ?_, ?_⟩
  · have h0 := hwf.2.1
    rw [records_length a hwf]
    omega
  · intro i hi
    exact records_getElem? a hwf i (by omega)

/-- The table of the sample run. -/
theorem printCreatures_rows_witness :
    sampleArmy.wellFormed ∧
    ((sampleArmy.printCreatures {}).out = ({} : OStream).out ++ lit "\n" ++ ruleLine
      ++ lit "| Name           | Type           |\n" ++ ruleLine
      ++ rows sampleArmy.records ++ ruleLine ∧
    (sampleArmy.records.length : Int) = sampleArmy.count ∧
    ∀ i : Nat, (i : Int) < sampleArmy.count →
      sampleArmy.records[i]? = some (sampleArmy.get i)) ∧
    rows sampleArmy.records = lit "| Dragon         | Flying         |\n"
      ++ lit "| Centaur        | Ground         |\n"
      ++ lit "| Parrot         | Flying         |\n" :=
  ⟨by simp [Army.wellFormed, sampleArmy, MAX_CREATURES],
   printCreatures_rows sampleArmy {}
     (by simp [Army.wellFormed, sampleArmy, MAX_CREATURES]) rfl,
   by decide⟩

/-! ## searchCreature -/

theorem specLower_eq (s : CppString) : specLower s = Creature.toLower s := by
  have hA : 'A'.toNat = 65 := rfl
  have hZ : 'Z'.toNat = 90 := rfl
  have ha : 'a'.toNat = 97 := rfl
  unfold specLower Creature.toLower
  apply List.map_congr_left
  intro c _
  simp only [hA, hZ, ha, tolower]
  split_ifs <;> omega

theorem toLower_specUpper (s : CppString) :
    Creature.toLower (specUpper s) = Creature.toLower s := by
  have hA : 'A'.toNat = 65 := rfl
  have ha : 'a'.toNat = 97 := rfl
  have hz : 'z'.toNat = 122 := rfl
  unfold specUpper Creature.toLower
  rw [List.map_map]
  apply List.map_congr_left
  intro c _
  simp only [Function.comp, hA, ha, hz, tolower]
  split_ifs <;> omega

theorem findFrom_isSome (needle : CppString) (s : CppString) :
    ∀ pos, (findFrom s needle pos).isSome = true ↔ List.IsInfix needle s := by
  induction s with
  | nil =>
    intro pos
    cases needle with
    | nil => simp [findFrom]
    | cons x xs => simp [findFrom]
  | cons c cs ih =>
    intro pos
    rw [List.infix_cons_iff]
    by_cases hp : needle.isPrefixOf (c :: cs) = true
    · simp only [findFrom, hp, if_true, Option.isSome_some, true_iff]
      exact Or.inl (List.isPrefixOf_iff_prefix.1 hp)
    · have hp1 : ¬ List.IsPrefix needle (c :: cs) :=
        fun h => hp (List.isPrefixOf_iff_prefix.2 h)
      have hp2 : needle.isPrefixOf (c :: cs) = false := by
        rw [← Bool.not_eq_true]
        exact hp
      have e : findFrom (c :: cs) needle pos = findFrom cs needle (pos + 1) := by
        simp [findFrom, hp2]
      rw [e, ih (pos + 1)]
      constructor
      · intro h; exact Or.inr h
      · intro h
        rcases h with h | h
        · exact absurd h hp1
        · exact h

theorem matches_iff (q : CppString) (r : Creature) :
    r.matches q = true ↔ specMatches q r := by
  simp only [Creature.matches, specMatches, specLower_eq, Bool.or_eq_true, find,
    findFrom_isSome]

theorem matches_empty (r : Creature) : r.matches [] = true := by
  rw [matches_iff]
  left
  simp [specLower]

theorem search_fold (a : Army) (q : CppString) (l : List Nat) :
    ∀ (os : OStream) (found : Bool), os.width = 0 →
      (List.foldl (fun s i => Army.searchBody a q i s) (os, found) l).1.out
        = os.out ++ rows ((l.map a.get).filter (fun r => r.matches q)) ∧
      (List.foldl (fun s i => Army.searchBody a q i s) (os, found) l).1.width = 0 ∧
      (List.foldl (fun s i => Army.searchBody a q i s) (os, found) l).2
        = (found || !((l.map a.get).filter (fun r => r.matches q)).isEmpty) := by
  induction l with
  | nil => intro os found hw; simp [rows, hw]
  | cons i l ih =>
    intro os found hw
    rw [List.foldl_cons]
    cases hm : (a.get i).matches q with
    | true =>
      have hs : Army.searchBody a q i (os, found) = ((a.get i).display os, true) := by
        simp [Army.searchBody, hm]
      rw [hs]
      obtain ⟨h1, h2, h3⟩ := ih ((a.get i).display os) true (by rw [display_eq _ _ hw])
      refine ⟨?_, h2, ?_⟩
      · rw [h1, display_eq _ _ hw]
        simp [rows, hm]
      · rw [h3]
        simp [hm]
    | false =>
      have hs : Army.searchBody a q i (os, found) = (os, found) := by
        simp [Army.searchBody, hm]
      rw [hs]
      obtain ⟨h1, h2, h3⟩ := ih os found hw
      refine ⟨?_, h2, ?_⟩
      · rw [h1]
        simp [hm]
      · rw [h3]
        simp [hm]

theorem searchCreature_out (q : CppString) (a : Army) (os : OStream) (hwf : a.wellFormed)
    (hw : os.width = 0) :
    (a.searchCreature q os).out = os.out ++ lit "\nMatching Creatures:\n" ++ ruleLine
      ++ rows (a.records.filter (fun r => r.matches q))
      ++ (if (a.records.filter (fun r => r.matches q)).isEmpty
          then lit "No matching creatures found.\n" else [])
      ++ ruleLine := by
  have h := search_fold a q (List.range a.count.toNat)
    (rule (os.put (lit "\nMatching Creatures:\n"))) false (by rw [rule_eq])
  rw [← records_eq_map_range a hwf] at h
  simp only [Army.searchCreature, forLoop]
  generalize List.foldl (fun s i => Army.searchBody a q i s)
    (rule (os.put (lit "\nMatching Creatures:\n")), false) (List.range a.count.toNat) = S
    at h ⊢
  obtain ⟨h1, h2, h3⟩ := h
  rw [rule_out, h3]
  cases hM : (a.records.filter (fun r => r.matches q)).isEmpty with
  | true =>
    simp only [Bool.false_or, Bool.not_true, Bool.not_false, if_true]
    rw [put_out _ _ h2, h1, rule_out, put_out _ _ hw]
  | false =>
    simp only [Bool.false_or, Bool.not_true, Bool.not_false, Bool.false_eq_true, if_false]
    rw [h1, rule_out, put_out _ _ hw]
    simp

/-- C8: `searchCreature` writes its header and the rule, then the rows of
exactly the held records, in load order, for which the lowercased query is a
contiguous substring of the lowercased name or type (`specMatches`), then
the message when there is none, then the closing rule; `matches` decides
that predicate. -/
theorem searchCreature_filter (q : CppString) (a : Army) (os : OStream)
    (hwf : a.wellFormed) (hw : os.width = 0) :
    (a.searchCreature q os).out = os.out ++ lit "\nMatching Creatures:\n" ++ ruleLine
      ++ rows (a.records.filter (fun r => decide (specMatches q r)))
      ++ (if (a.records.filter (fun r => decide (specMatches q r))).isEmpty
          then lit "No matching creatures found.\n" else [])
      ++ ruleLine ∧
    ∀ r : Creature, r.matches q = true ↔ specMatches q r := by
  have e : (fun r : Creature => decide (specMatches q r)) = (fun r => r.matches q) := by
    funext r
    cases h : r.matches q with
    | true => simpa using (matches_iff q r).1 h
    | false =>
      have h1 : ¬ specMatches q r := fun hs => by
        rw [(matches_iff q r).2 hs] at h
        exact absurd h (by simp)
      simpa using h1
  rw [e]
  exact ⟨searchCreature_out q a os hwf hw, matches_iff q⟩

/-- The sample run: the query "drag" finds the Dragon record only. -/
theorem searchCreature_filter_witness :
    sampleArmy.wellFormed ∧
    ((sampleArmy.searchCreature (lit "drag") {}).out
      = ({} : OStream).out ++ lit "\nMatching Creatures:\n" ++ ruleLine
      ++ rows (sampleArmy.records.filter (fun r => decide (specMatches (lit "drag") r)))
      ++ (if (sampleArmy.records.filter
            (fun r => decide (specMatches (lit "drag") r))).isEmpty
          then lit "No matching creatures found.\n" else [])
      ++ ruleLine ∧
    ∀ r : Creature, r.matches (lit "drag") = true ↔ specMatches (lit "drag") r) ∧
    sampleArmy.records.filter (fun r => r.matches (lit "drag"))
      = [⟨lit "Dragon", lit "Flying"⟩] ∧
    (sampleArmy.searchCreature (lit "drag") {}).out
      = lit "\nMatching Creatures:\n" ++ ruleLine
        ++ lit "| Dragon         | Flying         |\n" ++ ruleLine :=
  ⟨by simp [Army.wellFormed, sampleArmy, MAX_CREATURES],
   searchCreature_filter (lit "drag") sampleArmy {}
     (by simp [Army.wellFormed, sampleArmy, MAX_CREATURES]) rfl,
   by decide, by decide⟩

/-- C9: the empty query matches every record, so `searchCreature` with the
empty query writes the rows of all held records in load order (and the
message only when no record is held). -/
theorem searchCreature_empty (a : Army) (os : OStream) (hwf : a.wellFormed)
    (hw : os.width = 0) :
    (∀ r : Creature, r.matches [] = true) ∧
    (a.searchCreature [] os).out = os.out ++ lit "\nMatching Creatures:\n" ++ ruleLine
      ++ rows a.records
      ++ (if a.records.isEmpty then lit "No matching creatures found.\n" else [])
      ++ ruleLine := by
  refine ⟨matches_empty, ?_⟩
  have e : a.records.filter (fun r => r.matches []) = a.records :=
    List.filter_eq_self.2 (fun r _ => matches_empty r)
  have h := searchCreature_out [] a os hwf hw
  rw [e] at h
  exact h

/-- The sample army searched with the empty query. -/
theorem searchCreature_empty_witness :
    sampleArmy.wellFormed ∧
    ((∀ r : Creature, r.matches [] = true) ∧
    (sampleArmy.searchCreature [] {}).out
      = ({} : OStream).out ++ lit "\nMatching Creatures:\n" ++ ruleLine
      ++ rows sampleArmy.records
      ++ (if sampleArmy.records.isEmpty then lit "No matching creatures found.\n" else [])
      ++ ruleLine) ∧
    sampleArmy.records.filter (fun r => r.matches []) = sampleArmy.records :=
  ⟨by simp [Army.wellFormed, sampleArmy, MAX_CREATURES],
   searchCreature_empty sampleArmy {}
     (by simp [Army.wellFormed, sampleArmy, MAX_CREATURES]) rfl,
   by decide⟩

/-- C10: the case of the query does not matter: `matches` gives the same
answer for a query and for its uppercased form, and `searchCreature` leaves
`std::cout` in the same state for both. -/
theorem searchCreature_upper (q : CppString) (a : Army) (os : OStream) :
    (∀ r : Creature, r.matches (specUpper q) = r.matches q) ∧
    a.searchCreature (specUpper q) os = a.searchCreature q os := by
  have hm : ∀ r : Creature, r.matches (specUpper q) = r.matches q := by
    intro r
    simp only [Creature.matches, toLower_specUpper]
  refine ⟨hm, ?_⟩
  have hb : Army.searchBody a (specUpper q) = Army.searchBody a q := by
    funext i s
    simp only [Army.searchBody, hm]
  simp only [Army.searchCreature, hb]

/-! ## The message of searchCreature and the shape of its table -/

theorem searchCreature_out_of_none (q : CppString) (a : Army) (os : OStream)
    (hwf : a.wellFormed) (hw : os.width = 0)
    (he : a.records.filter (fun r => r.matches q) = []) :
    (a.searchCreature q os).out = os.out ++ lit "\nMatching Creatures:\n" ++ ruleLine
      ++ lit "No matching creatures found.\n" ++ ruleLine := by
  rw [searchCreature_out q a os hwf hw, he]
  simp [rows]

theorem searchCreature_out_of_some (q : CppString) (a : Army) (os : OStream)
    (hwf : a.wellFormed) (hw : os.width = 0)
    (hne : a.records.filter (fun r => r.matches q) ≠ []) :
    (a.searchCreature q os).out = os.out ++ lit "\nMatching Creatures:\n" ++ ruleLine
      ++ rows (a.records.filter (fun r => r.matches q)) ++ ruleLine := by
  rw [searchCreature_out q a os hwf hw]
  have hE : (a.records.filter (fun r => r.matches q)).isEmpty = false := by
    cases hl : a.records.filter (fun r => r.matches q) with
    | nil => exact absurd hl hne
    | cons x xs => rfl
  rw [hE]
  simp

/-- C11 (as amended): when no held record matches, `searchCreature` writes its
title, the rule, the message "No matching creatures found." and the closing
rule: the message stands between the two rule lines, where the rows would
be. When some record matches, the rows of the matches stand there and the
message is not written. -/
theorem searchCreature_message (q : CppString) (a : Army) (os : OStream)
    (hwf : a.wellFormed) (hw : os.width = 0) :
    (a.records.filter (fun r => r.matches q) = [] →
      (a.searchCreature q os).out = os.out ++ lit "\nMatching Creatures:\n" ++ ruleLine
        ++ lit "No matching creatures found.\n" ++ ruleLine) ∧
    (a.records.filter (fun r => r.matches q) ≠ [] →
      (a.searchCreature q os).out = os.out ++ lit "\nMatching Creatures:\n" ++ ruleLine
        ++ rows (a.records.filter (fun r => r.matches q)) ++ ruleLine) :=
  ⟨searchCreature_out_of_none q a os hwf hw, searchCreature_out_of_some q a os hwf hw⟩

/-- The sample army: "drag" matches a record, so no message is written. -/
theorem searchCreature_message_witness :
    sampleArmy.wellFormed ∧
    ((sampleArmy.records.filter (fun r => r.matches (lit "drag")) = [] →
      (sampleArmy.searchCreature (lit "drag") {}).out
        = ({} : OStream).out ++ lit "\nMatching Creatures:\n" ++ ruleLine
        ++ lit "No matching creatures found.\n" ++ ruleLine) ∧
    (sampleArmy.records.filter (fun r => r.matches (lit "drag")) ≠ [] →
      (sampleArmy.searchCreature (lit "drag") {}).out
        = ({} : OStream).out ++ lit "\nMatching Creatures:\n" ++ ruleLine
        ++ rows (sampleArmy.records.filter (fun r => r.matches (lit "drag")))
        ++ ruleLine)) ∧
    sampleArmy.records.filter (fun r => r.matches (lit "drag")) ≠ [] :=
  ⟨by simp [Army.wellFormed, sampleArmy, MAX_CREATURES],
   searchCreature_message (lit "drag") sampleArmy {}
     (by simp [Army.wellFormed, sampleArmy, MAX_CREATURES]) rfl,
   by decide⟩

/-- C11, the claim as stated fails: on the sample army the query "zzz"
matches no record, and the message is written with a rule line right before
it and a rule line right after it. -/
theorem searchCreature_message_between_rules :
    sampleArmy.records.filter (fun r => r.matches (lit "zzz")) = [] ∧
    (sampleArmy.searchCreature (lit "zzz") {}).out
      = lit "\nMatching Creatures:\n" ++ ruleLine
        ++ lit "No matching creatures found.\n" ++ ruleLine ∧
    List.IsInfix (ruleLine ++ lit "No matching creatures found.\n" ++ ruleLine)
      (sampleArmy.searchCreature (lit "zzz") {}).out := by
  have h1 : sampleArmy.records.filter (fun r => r.matches (lit "zzz")) = [] := by decide
  have h2 := searchCreature_out_of_none (lit "zzz") sampleArmy {}
    (by simp [Army.wellFormed, sampleArmy, MAX_CREATURES]) rfl h1
  have h3 : (sampleArmy.searchCreature (lit "zzz") {}).out
      = lit "\nMatching Creatures:\n" ++ ruleLine
        ++ lit "No matching creatures found.\n" ++ ruleLine := by
    rw [h2]; rfl
  refine ⟨h1, h3, ?_⟩
  rw [h3]
  exact ⟨lit "\nMatching Creatures:\n", [], by simp⟩

/-- C18 (as amended): for a query that matches every held record of a
collection that holds one at least, `searchCreature` writes the title line,
one rule, the rows of all records and the closing rule, while
`printCreatures` writes a blank line, a rule, the header row, a second rule,
the same rows and the same closing rule. The rows and the rules are the
same; the title replaces the header row and the rule above it. -/
theorem searchCreature_table (q : CppString) (a : Army) (os : OStream)
    (hwf : a.wellFormed) (hw : os.width = 0) (hne : a.records ≠ [])
    (hall : ∀ r ∈ a.records, r.matches q = true) :
    (a.searchCreature q os).out = os.out ++ lit "\nMatching Creatures:\n" ++ ruleLine
      ++ rows a.records ++ ruleLine ∧
    (a.printCreatures os).out = os.out ++ lit "\n" ++ ruleLine
      ++ lit "| Name           | Type           |\n" ++ ruleLine
      ++ rows a.records ++ ruleLine := by
  have e : a.records.filter (fun r => r.matches q) = a.records :=
    List.filter_eq_self.2 hall
  have h := searchCreature_out_of_some q a os hwf hw (by rw [e]; exact hne)
  rw [e] at h
  exact ⟨h, printCreatures_out a os hwf hw⟩

/-- The sample army and the empty query. -/
theorem searchCreature_table_witness :
    sampleArmy.wellFormed ∧ sampleArmy.records ≠ [] ∧
    (∀ r ∈ sampleArmy.records, r.matches [] = true) ∧
    ((sampleArmy.searchCreature [] {}).out
      = ({} : OStream).out ++ lit "\nMatching Creatures:\n" ++ ruleLine
      ++ rows sampleArmy.records ++ ruleLine ∧
    (sampleArmy.printCreatures {}).out = ({} : OStream).out ++ lit "\n" ++ ruleLine
      ++ lit "| Name           | Type           |\n" ++ ruleLine
      ++ rows sampleArmy.records ++ ruleLine) :=
  ⟨by simp [Army.wellFormed, sampleArmy, MAX_CREATURES], by decide,
   fun r _ => matches_empty r,
   searchCreature_table [] sampleArmy {}
     (by simp [Army.wellFormed, sampleArmy, MAX_CREATURES]) rfl (by decide)
     (fun r _ => matches_empty r)⟩

set_option maxRecDepth 100000 in
/-- C18, the claim as stated fails: on the sample army the empty query
matches every record, yet what `searchCreature` writes differs from what
`printCreatures` writes, and the header row of `printCreatures` is not part
of it. -/
theorem searchCreature_table_differs :
    (∀ r ∈ sampleArmy.records, r.matches [] = true) ∧
    (sampleArmy.searchCreature [] {}).out ≠ (sampleArmy.printCreatures {}).out ∧
    ¬ List.IsInfix (lit "| Name           | Type           |\n")
        (sampleArmy.searchCreature [] {}).out ∧
    List.IsInfix (lit "| Name           | Type           |\n")
        (sampleArmy.printCreatures {}).out := by
  have hwf : sampleArmy.wellFormed := by simp [Army.wellFormed, sampleArmy, MAX_CREATURES]
  have he : sampleArmy.records.filter (fun r => r.matches []) = sampleArmy.records :=
    List.filter_eq_self.2 (fun r _ => matches_empty r)
  have hs := searchCreature_out [] sampleArmy {} hwf rfl
  rw [he] at hs
  have hp := printCreatures_out sampleArmy {} hwf rfl
  have hr : rows sampleArmy.records = lit "| Dragon         | Flying         |\n"
      ++ lit "| Centaur        | Ground         |\n"
      ++ lit "| Parrot         | Flying         |\n" := by decide
  have hE : sampleArmy.records.isEmpty = false := by decide
  rw [hr, hE] at hs
  rw [hr] at hp
  have hin : List.IsInfix (lit "| Name           | Type           |\n")
      (sampleArmy.printCreatures {}).out := by
    rw [hp]
    exact ⟨({} : OStream).out ++ lit "\n" ++ ruleLine,
      ruleLine ++ (lit "| Dragon         | Flying         |\n"
        ++ lit "| Centaur        | Ground         |\n"
        ++ lit "| Parrot         | Flying         |\n") ++ ruleLine, by simp⟩
  have hnot : ¬ List.IsInfix (lit "| Name           | Type           |\n")
      (sampleArmy.searchCreature [] {}).out := by
    rw [hs]
    decide
  refine ⟨fun r _ => matches_empty r, ?_, hnot, hin⟩
  intro heq
  rw [heq] at hnot
  exact hnot hin

/-! ## The row that display writes -/

theorem row_eq (c : Creature) :
    c.row = lit "| " ++ c.name ++ List.replicate (MAX_NAME_LENGTH - c.name.length) ' '.toNat
      ++ lit "| " ++ c.type ++ List.replicate (MAX_TYPE_LENGTH - c.type.length) ' '.toNat
      ++ lit "|" ++ lit "\n" := by
  have e : lit "|\n" = lit "|" ++ lit "\n" := by decide
  simp [Creature.row, Creature.display, OStream.put, OStream.setw, OStream.setfill,
    OStream.left, e]

theorem lit_bar_length : (lit "| ").length = 2 ∧ (lit "|").length = 1 := by decide

/-- C12: for a record whose name and type have at most 15 bytes each,
`display` appends the row "| ", the name followed by blanks up to 15 bytes,
"| ", the type followed by blanks up to 15 bytes, "|" and a newline. Each
field is left-aligned in its 15 bytes, the row without its newline has 35
bytes, and the rule line is 35 dashes and a newline. -/
theorem display_width (c : Creature) (os : OStream) (hw : os.width = 0)
    (hn : c.name.length ≤ MAX_NAME_LENGTH) (ht : c.type.length ≤ MAX_TYPE_LENGTH) :
    (c.display os).out = os.out ++
      (lit "| " ++ (c.name ++ List.replicate (15 - c.name.length) ' '.toNat)
        ++ lit "| " ++ (c.type ++ List.replicate (15 - c.type.length) ' '.toNat)
        ++ lit "|") ++ lit "\n" ∧
    (c.name ++ List.replicate (15 - c.name.length) ' '.toNat).length = 15 ∧
    (c.type ++ List.replicate (15 - c.type.length) ' '.toNat).length = 15 ∧
    (lit "| " ++ (c.name ++ List.replicate (15 - c.name.length) ' '.toNat)
        ++ lit "| " ++ (c.type ++ List.replicate (15 - c.type.length) ' '.toNat)
        ++ lit "|").length = 35 ∧
    (rule os).out = os.out ++ List.replicate 35 '-'.toNat ++ lit "\n" := by
  simp only [MAX_NAME_LENGTH, MAX_TYPE_LENGTH] at hn ht
  refine ⟨?_, ?_, ?_, ?_, ?_⟩
  · rw [display_eq c os hw, row_eq]
    simp [MAX_NAME_LENGTH, MAX_TYPE_LENGTH]
  · rw [List.length_append, List.length_replicate]; omega
  · rw [List.length_append, List.length_replicate]; omega
  · simp only [List.length_append, List.length_replicate, lit_bar_length.1, lit_bar_length.2]
    omega
  · rw [rule_out, ruleLine, List.append_assoc]

/-- The row of the Dragon record of the sample run. -/
theorem display_width_witness :
    ({} : OStream).width = 0 ∧
    (lit "Dragon").length ≤ MAX_NAME_LENGTH ∧ (lit "Flying").length ≤ MAX_TYPE_LENGTH ∧
    ((Creature.display ⟨lit "Dragon", lit "Flying"⟩ {}).out = ({} : OStream).out ++
      (lit "| " ++ (lit "Dragon" ++ List.replicate (15 - (lit "Dragon").length) ' '.toNat)
        ++ lit "| " ++ (lit "Flying" ++ List.replicate (15 - (lit "Flying").length) ' '.toNat)
        ++ lit "|") ++ lit "\n" ∧
    (lit "Dragon" ++ List.replicate (15 - (lit "Dragon").length) ' '.toNat).length = 15 ∧
    (lit "Flying" ++ List.replicate (15 - (lit "Flying").length) ' '.toNat).length = 15 ∧
    (lit "| " ++ (lit "Dragon" ++ List.replicate (15 - (lit "Dragon").length) ' '.toNat)
        ++ lit "| " ++ (lit "Flying" ++ List.replicate (15 - (lit "Flying").length) ' '.toNat)
        ++ lit "|").length = 35 ∧
    (rule {}).out = ({} : OStream).out ++ List.replicate 35 '-'.toNat ++ lit "\n") ∧
    (Creature.display ⟨lit "Dragon", lit "Flying"⟩ {}).out
      = lit "| Dragon         | Flying         |\n" :=
  ⟨rfl, by decide, by decide,
   display_width ⟨lit "Dragon", lit "Flying"⟩ {} rfl (by decide) (by decide),
   by decide⟩

/-- C13: `display` never truncates. The row holds the whole name and the
whole type; a field gets `15 - length` blanks, which is none when it has 15
bytes or more; and the row without its newline has
`5 + max 15 |name| + max 15 |type|` bytes. -/
theorem display_no_truncation (c : Creature) (os : OStream) (hw : os.width = 0) :
    (c.display os).out = os.out ++
      (lit "| " ++ c.name ++ List.replicate (15 - c.name.length) ' '.toNat
        ++ lit "| " ++ c.type ++ List.replicate (15 - c.type.length) ' '.toNat
        ++ lit "|") ++ lit "\n" ∧
    (15 ≤ c.name.length → List.replicate (15 - c.name.length) ' '.toNat = []) ∧
    (15 ≤ c.type.length → List.replicate (15 - c.type.length) ' '.toNat = []) ∧
    (lit "| " ++ c.name ++ List.replicate (15 - c.name.length) ' '.toNat
        ++ lit "| " ++ c.type ++ List.replicate (15 - c.type.length) ' '.toNat
        ++ lit "|").length = 5 + max 15 c.name.length + max 15 c.type.length := by
  refine ⟨?_, ?_, ?_, ?_⟩
  · rw [display_eq c os hw, row_eq]
    simp [MAX_NAME_LENGTH, MAX_TYPE_LENGTH]
  · intro h
    have e : 15 - c.name.length = 0 := by omega
    rw [e]; rfl
  · intro h
    have e : 15 - c.type.length = 0 := by omega
    rw [e]; rfl
  · simp only [List.length_append, List.length_replicate, lit_bar_length.1, lit_bar_length.2]
    omega

/-- A record whose name has 17 bytes: the row has 37 bytes before its newline. -/
theorem display_no_truncation_witness :
    ({} : OStream).width = 0 ∧
    (Creature.display ⟨lit "Tyrannosaurus-Rex", lit "Ground"⟩ {}).out
      = lit "| Tyrannosaurus-Rex| Ground         |\n" ∧
    ((Creature.display ⟨lit "Tyrannosaurus-Rex", lit "Ground"⟩ {}).out = ({} : OStream).out ++
      (lit "| " ++ lit "Tyrannosaurus-Rex"
        ++ List.replicate (15 - (lit "Tyrannosaurus-Rex").length) ' '.toNat
        ++ lit "| " ++ lit "Ground" ++ List.replicate (15 - (lit "Ground").length) ' '.toNat
        ++ lit "|") ++ lit "\n" ∧
    (15 ≤ (lit "Tyrannosaurus-Rex").length →
      List.replicate (15 - (lit "Tyrannosaurus-Rex").length) ' '.toNat = []) ∧
    (15 ≤ (lit "Ground").length →
      List.replicate (15 - (lit "Ground").length) ' '.toNat = []) ∧
    (lit "| " ++ lit "Tyrannosaurus-Rex"
        ++ List.replicate (15 - (lit "Tyrannosaurus-Rex").length) ' '.toNat
        ++ lit "| " ++ lit "Ground" ++ List.replicate (15 - (lit "Ground").length) ' '.toNat
        ++ lit "|").length
      = 5 + max 15 (lit "Tyrannosaurus-Rex").length + max 15 (lit "Ground").length) :=
  ⟨rfl, by decide,
   display_no_truncation ⟨lit "Tyrannosaurus-Rex", lit "Ground"⟩ {} rfl⟩

/-! ## sortCreatures leaves the army as it is -/

/-- C17: `sortCreatures` only reads the collection. After any sequence of
calls of `sortCreatures` (each with fuel above `count * count`, so that it
returns) the army is the one before: the array `creatures` and `count` are
unchanged, every slot holds the same record, and `printCreatures` writes
what it would have written before the calls. -/
theorem sortCreatures_frame (calls : List Call) (s : Process)
    (hsort : ∀ c ∈ calls, ∃ fuel option, c = Call.sortCreatures fuel option ∧
      s.army.count.toNat * s.army.count.toNat < fuel) :
    ∃ s1, runCalls calls s = some s1 ∧ s1.army = s.army ∧ s1.cerr = s.cerr ∧
      s1.army.creatures = s.army.creatures ∧ s1.army.count = s.army.count ∧
      (∀ i, s1.army.get i = s.army.get i) ∧
      (∀ os, s1.army.printCreatures os = s.army.printCreatures os) := by
  induction calls generalizing s with
  | nil => exact ⟨s, rfl, rfl, rfl, rfl, rfl, fun _ => rfl, fun _ => rfl⟩
  | cons c cs ih =>
    obtain ⟨fuel, option, hc, hf⟩ := hsort c (List.mem_cons_self c cs)
    obtain ⟨os1, hrun⟩ := sortCreatures_returns fuel option s.army s.cout hf
    have hstep : c.run s = some { s with army := s.army, cout := os1 } := by
      rw [hc]
      simp [Call.run, hrun]
    obtain ⟨s1, h1, h2, h3, _⟩ := ih { s with army := s.army, cout := os1 }
      (fun c1 hc1 => hsort c1 (List.mem_cons_of_mem c hc1))
    refine ⟨s1, ?_, h2, h3, ?_, ?_, ?_, ?_⟩
    · simp only [runCalls, hstep]
      exact h1
    · rw [h2]
    · rw [h2]
    · intro i; rw [h2]
    · intro os; rw [h2]

/-- Three sorts of the sample army, by name, by type and by name again:
`printCreatures` still writes the table in load order. -/
theorem sortCreatures_frame_witness :
    (∀ c ∈ [Call.sortCreatures 10 NAME, Call.sortCreatures 10 TYPE, Call.sortCreatures 10 NAME],
      ∃ fuel option, c = Call.sortCreatures fuel option ∧
        sampleArmy.count.toNat * sampleArmy.count.toNat < fuel) ∧
    ∃ s1, runCalls
        [Call.sortCreatures 10 NAME, Call.sortCreatures 10 TYPE, Call.sortCreatures 10 NAME]
        { army := sampleArmy } = some s1 ∧
      s1.army = sampleArmy ∧ s1.cerr = {} ∧
      s1.army.creatures = sampleArmy.creatures ∧ s1.army.count = sampleArmy.count ∧
      (∀ i, s1.army.get i = sampleArmy.get i) ∧
      (∀ os, s1.army.printCreatures os = sampleArmy.printCreatures os) := by
  have h : ∀ c ∈ [Call.sortCreatures 10 NAME, Call.sortCreatures 10 TYPE,
      Call.sortCreatures 10 NAME],
      ∃ fuel option, c = Call.sortCreatures fuel option ∧
        sampleArmy.count.toNat * sampleArmy.count.toNat < fuel := by
    intro c hc
    simp only [List.mem_cons, List.mem_singleton, List.not_mem_nil, or_false] at hc
    rcases hc with e | e | e
    · exact ⟨10, NAME, e, by decide⟩
    · exact ⟨10, TYPE, e, by decide⟩
    · exact ⟨10, NAME, e, by decide⟩
  exact ⟨h, sortCreatures_frame _ { army := sampleArmy } h⟩

/-! ## The bubble sort loop terminates -/

theorem split_at_pair (p : List Nat) :
    ∀ i, i + 1 < p.length → ∃ l x y r, p = l ++ x :: y :: r ∧ l.length = i := by
  induction p with
  | nil => intro i h; simp at h
  | cons h t ih =>
    intro i hi
    cases i with
    | zero =>
      cases t with
      | nil => simp at hi
      | cons y r => exact ⟨[], h, y, r, rfl, rfl⟩
    | succ k =>
      simp only [List.length_cons] at hi
      obtain ⟨l, x, y, r, e, hl⟩ := ih k (by omega)
      exact ⟨h :: l, x, y, r, by simp [e], by simp [hl]⟩

theorem inversions_swap (gt : Nat → Nat → Bool) (x y : Nat) (r : List Nat)
    (hxy : gt x y = true) (hyx : gt y x = false) :
    ∀ l : List Nat, inversions gt (l ++ y :: x :: r) + 1 = inversions gt (l ++ x :: y :: r) := by
  intro l
  induction l with
  | nil =>
    simp only [List.nil_append, inversions, List.countP_cons, hxy, hyx]
    simp
    omega
  | cons h t ih =>
    have hc : List.countP (gt h) (t ++ y :: x :: r) = List.countP (gt h) (t ++ x :: y :: r) := by
      simp only [List.countP_append, List.countP_cons]
      omega
    show List.countP (gt h) (t ++ y :: x :: r) + inversions gt (t ++ y :: x :: r) + 1
      = List.countP (gt h) (t ++ x :: y :: r) + inversions gt (t ++ x :: y :: r)
    rw [hc]
    omega

theorem sortLoop_fuel_mono (option : Int) (a : Army) :
    ∀ (fuel k : Nat) (p q : List Nat), Army.sortLoop option a fuel p = some q →
      Army.sortLoop option a (fuel + k) p = some q := by
  intro fuel
  induction fuel with
  | zero => intro k p q h; simp [Army.sortLoop] at h
  | succ fuel ih =>
    intro k p q h
    have e : fuel + 1 + k = (fuel + k) + 1 := by omega
    rw [e]
    simp only [Army.sortLoop] at h ⊢
    split_ifs at h ⊢ with hs
    · exact ih k _ q h
    · exact h

/-- C19: the loop `do ... while (swapped)` of `sortCreatures` terminates for
every army and every sort option. Every swap lowers the number of
inversions of the pointer array by one, a pass that swaps lowers it, so the
loop returns as soon as the fuel exceeds the inversions of the initial
array, which are at most `count * count`; with `count <= 0` the inner loop
does not run and the first pass is the last; more fuel does not change the
result. -/
theorem sortLoop_terminates (option : Int) (a : Army) :
    (∀ (p : List Nat) (i : Nat), i + 1 < p.length → Army.toSwap option a p i = true →
      inversions (ptrGt option a) (Army.swap p i (i + 1)) + 1
        = inversions (ptrGt option a) p) ∧
    (∀ p : List Nat, p.length = a.count.toNat → (Army.sortPass option a p).2 = true →
      inversions (ptrGt option a) (Army.sortPass option a p).1
        < inversions (ptrGt option a) p) ∧
    (∀ fuel, inversions (ptrGt option a) (Army.initPointers a) < fuel →
      ∃ p, Army.sortedPointers fuel option a = some p) ∧
    inversions (ptrGt option a) (Army.initPointers a) ≤ a.count.toNat * a.count.toNat ∧
    (∃ p, Army.sortedPointers (a.count.toNat * a.count.toNat + 1) option a = some p) ∧
    (a.count ≤ 0 → Army.sortedPointers 1 option a = some []) ∧
    (∀ (fuel k : Nat) (p : List Nat), Army.sortedPointers fuel option a = some p →
      Army.sortedPointers (fuel + k) option a = some p) := by
  have hlen : (Army.initPointers a).length = a.count.toNat := by simp [Army.initPointers]
  have hinv := inversions_le (ptrGt option a) (Army.initPointers a)
  rw [hlen] at hinv
  refine ⟨?_, ?_, ?_, hinv, ?_, ?_, ?_⟩
  · intro p i hi hsw
    obtain ⟨l, x, y, r, e, hl⟩ := split_at_pair p i hi
    subst e
    subst hl
    rw [toSwap_mid] at hsw
    rw [swap_mid]
    exact inversions_swap _ x y r hsw (ptrGt_asymm option a x y hsw) l
  · intro p hp hs
    have h := (sortPass_spec option a p hp).2.2.1
    rw [hs] at h
    simp only [if_true] at h
    omega
  · intro fuel hf
    obtain ⟨q, hq, _⟩ := sortLoop_spec option a fuel (Army.initPointers a) hlen hf
    exact ⟨q, hq⟩
  · obtain ⟨q, hq, _⟩ := sortLoop_spec option a (a.count.toNat * a.count.toNat + 1)
      (Army.initPointers a) hlen (by omega)
    exact ⟨q, hq⟩
  · intro h0
    have hz : a.count.toNat = 0 := by omega
    simp [Army.sortedPointers, Army.initPointers, hz, Army.sortLoop,
      sortPass_nil option a hz]
  · intro fuel k p h
    exact sortLoop_fuel_mono option a fuel k _ p h

/-! ## The bubble sort and the reference stable sort -/

theorem strCompare_lt_of_lt_of_le {a b c : CppString}
    (hab : strCompare a b < 0) (hbc : strCompare b c ≤ 0) : strCompare a c < 0 := by
  by_contra h
  have h1 := strCompare_swap a c
  have h2 : strCompare b a ≤ 0 := strCompare_le_trans hbc (by omega)
  have h3 := strCompare_swap a b
  omega

theorem strCompare_lt_of_le_of_lt {a b c : CppString}
    (hab : strCompare a b ≤ 0) (hbc : strCompare b c < 0) : strCompare a c < 0 := by
  by_contra h
  have h1 := strCompare_swap a c
  have h2 : strCompare c b ≤ 0 := strCompare_le_trans (by omega) hab
  have h3 := strCompare_swap b c
  omega

theorem idxLe_total (option : Int) (a : Army) (u v : Nat) :
    idxLe option a u v ∨ idxLe option a v u := by
  unfold idxLe
  have h := strCompare_swap (sortKey option (a.get u)) (sortKey option (a.get v))
  omega

theorem idxLe_trans (option : Int) (a : Army) (u v w : Nat)
    (huv : idxLe option a u v) (hvw : idxLe option a v w) : idxLe option a u w := by
  unfold idxLe at huv hvw ⊢
  rcases huv with h1 | ⟨h1, h1i⟩
  · left
    exact strCompare_lt_of_lt_of_le h1 (by omega)
  · rcases hvw with h2 | ⟨h2, h2i⟩
    · left
      exact strCompare_lt_of_le_of_lt (by omega) h2
    · right
      have e1 := strCompare_eq_zero h1
      rw [e1]
      exact ⟨h2, by omega⟩

theorem idxLe_antisymm (option : Int) (a : Army) (u v : Nat)
    (huv : idxLe option a u v) (hvu : idxLe option a v u) : u = v := by
  unfold idxLe at huv hvu
  have h := strCompare_swap (sortKey option (a.get u)) (sortKey option (a.get v))
  omega

theorem idxLe_iff_keyLe (option : Int) (a : Army) {u v : Nat} (huv : u < v) :
    idxLe option a u v ↔ keyLe option (a.get u) (a.get v) := by
  unfold idxLe keyLe
  omega

theorem map_orderedInsert_idx (option : Int) (a : Army) (i : Nat) :
    ∀ L : List Nat, (∀ j ∈ L, i < j) →
      (L.orderedInsert (idxLe option a) i).map a.get
        = (L.map a.get).orderedInsert (keyLe option) (a.get i) := by
  intro L
  induction L with
  | nil => intro _; rfl
  | cons b L ih =>
    intro h
    have hb : i < b := h b (List.mem_cons_self b L)
    have hL : ∀ j ∈ L, i < j := fun j hj => h j (List.mem_cons_of_mem b hj)
    by_cases hle : idxLe option a i b
    · have hk := (idxLe_iff_keyLe option a hb).1 hle
      simp [List.orderedInsert, hle, hk]
    · have hk : ¬ keyLe option (a.get i) (a.get b) :=
        fun hk => hle ((idxLe_iff_keyLe option a hb).2 hk)
      simp [List.orderedInsert, hle, hk, ih hL]

theorem map_insertionSort_idx (option : Int) (a : Army) :
    ∀ l : List Nat, List.Pairwise (· < ·) l →
      (l.insertionSort (idxLe option a)).map a.get
        = (l.map a.get).insertionSort (keyLe option) := by
  intro l
  induction l with
  | nil => intro _; rfl
  | cons i t ih =>
    intro hp
    rw [List.pairwise_cons] at hp
    simp only [List.insertionSort, List.map_cons]
    rw [map_orderedInsert_idx option a i _ ?_, ih hp.2]
    intro j hj
    exact hp.1 j ((List.mem_insertionSort _).1 hj)

/-- The sorted pointers of a sort by NAME or TYPE are the slot indices below
`count` in the order by key, then by position. -/
theorem sortedPointers_eq_insertionSort (fuel : Nat) (option : Int) (a : Army)
    (hopt : option = NAME ∨ option = TYPE)
    (hfuel : a.count.toNat * a.count.toNat < fuel) :
    Army.sortedPointers fuel option a
      = some ((List.range a.count.toNat).insertionSort (idxLe option a)) := by
  obtain ⟨p, hp, hperm, hchain, hstab⟩ := sortedPointers_spec fuel option a hfuel
  haveI : IsTotal Nat (idxLe option a) := ⟨idxLe_total option a⟩
  haveI : IsTrans Nat (idxLe option a) := ⟨idxLe_trans option a⟩
  haveI : IsAntisymm Nat (idxLe option a) := ⟨idxLe_antisymm option a⟩
  have hle : ∀ u v, ptrGt option a u v = false ↔
      strCompare (sortKey option (a.get u)) (sortKey option (a.get v)) ≤ 0 := by
    intro u v
    rw [ptrGt_eq_sortKey option a hopt]
    have h := strGt_iff (sortKey option (a.get u)) (sortKey option (a.get v))
    constructor
    · intro hf
      rw [hf] at h
      simp at h
      exact h
    · intro hc
      cases hg : strGt (sortKey option (a.get u)) (sortKey option (a.get v)) with
      | false => rfl
      | true => have := h.1 hg; omega
  haveI : IsTrans Nat (fun u v => ptrGt option a u v = false) :=
    ⟨fun u v w huv hvw => (hle u w).2 (strCompare_le_trans ((hle u v).1 huv) ((hle v w).1 hvw))⟩
  have hpw : List.Pairwise (fun u v => ptrGt option a u v = false) p :=
    List.chain'_iff_pairwise.1 hchain
  have hsorted : List.Sorted (idxLe option a) p := by
    refine (hpw.and hstab).imp ?_
    intro u v h
    obtain ⟨h1, h2⟩ := h
    have c1 := (hle u v).1 h1
    unfold idxLe
    by_cases hz : strCompare (sortKey option (a.get u)) (sortKey option (a.get v)) = 0
    · right
      have hs := strCompare_swap (sortKey option (a.get u)) (sortKey option (a.get v))
      have h3 : ptrGt option a v u = false := (hle v u).2 (by omega)
      exact ⟨hz, Nat.le_of_lt (h2 h1 h3)⟩
    · left
      omega
  have heq : p = (List.range a.count.toNat).insertionSort (idxLe option a) :=
    List.eq_of_perm_of_sorted
      (hperm.trans (List.perm_insertionSort (idxLe option a) _).symm) hsorted
      (List.sorted_insertionSort (idxLe option a) _)
  rw [hp, heq]

/-- C16: for a well-formed army and the sort fields NAME and TYPE, the
records in the order in which the bubble sort of `sortCreatures` prints them
are the held records sorted by the reference stable sort (insertion sort
with the comparison `key(a) <= key(b)` on the chosen field). -/
theorem sortCreatures_eq_stable_sort (fuel : Nat) (option : Int) (a : Army) (os : OStream)
    (hwf : a.wellFormed) (hopt : option = NAME ∨ option = TYPE)
    (hfuel : a.count.toNat * a.count.toNat < fuel) (hw : os.width = 0) :
    ∃ p os1, Army.sortedPointers fuel option a = some p ∧
      Army.sortCreatures fuel option a os = some (a, os1) ∧
      p.map a.get = specStableSort option a.records ∧
      os1.out = os.out ++ lit "\nSorted Creatures:\n" ++ ruleLine
        ++ rows (specStableSort option a.records) ++ ruleLine := by
  have hp := sortedPointers_eq_insertionSort fuel option a hopt hfuel
  have hlen : ((List.range a.count.toNat).insertionSort (idxLe option a)).length
      = a.count.toNat := by simp
  obtain ⟨os1, hrun, hout⟩ := sortCreatures_out fuel option a os _ hp hlen hw
  have hmap : ((List.range a.count.toNat).insertionSort (idxLe option a)).map a.get
      = specStableSort option a.records := by
    rw [map_insertionSort_idx option a _ (List.pairwise_lt_range _), specStableSort,
      records_eq_map_range a hwf]
  rw [hmap] at hout
  exact ⟨_, os1, hp, hrun, hmap, hout⟩

/-- The sample army sorted by type: the bubble sort and the insertion sort
both give Dragon, Parrot, Centaur. -/
theorem sortCreatures_eq_stable_sort_witness :
    sampleArmy.wellFormed ∧ (TYPE = NAME ∨ TYPE = TYPE) ∧
    sampleArmy.count.toNat * sampleArmy.count.toNat < 10 ∧
    (∃ p os1, Army.sortedPointers 10 TYPE sampleArmy = some p ∧
      Army.sortCreatures 10 TYPE sampleArmy {} = some (sampleArmy, os1) ∧
      p.map sampleArmy.get = specStableSort TYPE sampleArmy.records ∧
      os1.out = ({} : OStream).out ++ lit "\nSorted Creatures:\n" ++ ruleLine
        ++ rows (specStableSort TYPE sampleArmy.records) ++ ruleLine) ∧
    specStableSort TYPE sampleArmy.records
      = [⟨lit "Dragon", lit "Flying"⟩, ⟨lit "Parrot", lit "Flying"⟩,
         ⟨lit "Centaur", lit "Ground"⟩] :=
  ⟨by simp [Army.wellFormed, sampleArmy, MAX_CREATURES], Or.inr rfl, by decide,
   sortCreatures_eq_stable_sort 10 TYPE sampleArmy {}
     (by simp [Army.wellFormed, sampleArmy, MAX_CREATURES]) (Or.inr rfl) (by decide) rfl,
   by decide⟩

/-! ## The menus -/

theorem readInt_fail_iff (is : IStream) :
    (is.readInt).1.fail = true ↔ (is.readInt).2 = none := by
  unfold IStream.readInt IStream.fail
  by_cases hf : is.failed = true
  · simp [hf]
  · simp only [hf]
    cases hb : List.dropWhile isspace is.buf with
    | nil => simp
    | cons c cs =>
      simp only [Bool.false_eq_true, if_false]
      split_ifs <;> simp

theorem displaySortMenu_of_none (cin : IStream) (cout : OStream)
    (h : (cin.readInt).2 = none) :
    (displaySortMenu cin cout).1 = BACK_TO_MAIN ∧
    (displaySortMenu cin cout).2.1 = ((cin.readInt).1.clear).ignore 10000 '\n'.toNat := by
  have hf := (readInt_fail_iff cin).2 h
  simp [displaySortMenu, hf]

theorem displaySortMenu_of_some (cin : IStream) (cout : OStream) (n : Int)
    (h : (cin.readInt).2 = some n) :
    (displaySortMenu cin cout).1 = n ∧ (displaySortMenu cin cout).2.1 = (cin.readInt).1 := by
  have hf : ¬ (cin.readInt).1.fail = true := by
    intro hf
    rw [(readInt_fail_iff cin).1 hf] at h
    exact absurd h (by simp)
  simp [displaySortMenu, hf, h]

/-- C14 (as amended): `displaySortMenu` returns the number read when the
extraction `cin >> choice` succeeds, and BACK_TO_MAIN when it fails; so it
returns BACK_TO_MAIN exactly when the read fails or the number is 3. In the
submenu loop a number other than 1, 2, 3 writes "Invalid choice. Try
again." and the loop runs again on the state reached; a failed read and the
number 3 both write "Returning to main menu..." and end the loop. The army
is unchanged in all these cases. -/
theorem displaySortMenu_back (cin : IStream) (cout : OStream) :
    ((displaySortMenu cin cout).1 = BACK_TO_MAIN ↔
      ((cin.readInt).2 = none ∨ (cin.readInt).2 = some 3)) ∧
    (∀ n, (cin.readInt).2 = some n → (displaySortMenu cin cout).1 = n) ∧
    (∀ (sortFuel fuel : Nat) (s : Run) (n : Int), (s.cin.readInt).2 = some n →
      n ≠ 1 → n ≠ 2 → n ≠ 3 →
      ∃ s1, sortMenuBody sortFuel s = some (s1, n) ∧ s1.army = s.army ∧
        s1.cin = (s.cin.readInt).1 ∧
        s1.cout = (displaySortMenu s.cin s.cout).2.2.put (lit "Invalid choice. Try again.\n") ∧
        sortMenuLoop sortFuel (fuel + 1) s = sortMenuLoop sortFuel fuel s1) ∧
    (∀ (sortFuel fuel : Nat) (s : Run),
      ((s.cin.readInt).2 = none ∨ (s.cin.readInt).2 = some 3) →
      ∃ s1, sortMenuBody sortFuel s = some (s1, BACK_TO_MAIN) ∧ s1.army = s.army ∧
        s1.cout = (displaySortMenu s.cin s.cout).2.2.put (lit "Returning to main menu...\n") ∧
        sortMenuLoop sortFuel (fuel + 1) s = some s1) := by
  have hsome : ∀ (c : IStream) (o : OStream) (n : Int), (c.readInt).2 = some n →
      (displaySortMenu c o).1 = n := fun c o n h => (displaySortMenu_of_some c o n h).1
  have hback : ∀ (c : IStream) (o : OStream),
      ((c.readInt).2 = none ∨ (c.readInt).2 = some 3) → (displaySortMenu c o).1 = BACK_TO_MAIN := by
    intro c o h
    rcases h with h | h
    · exact (displaySortMenu_of_none c o h).1
    · rw [hsome c o 3 h]; rfl
  refine ⟨⟨?_, hback cin cout⟩, hsome cin cout, ?_, ?_⟩
  · intro h
    cases hr : (cin.readInt).2 with
    | none => exact Or.inl rfl
    | some n =>
      right
      rw [hsome cin cout n hr] at h
      rw [h]; rfl
  · intro sortFuel fuel s n hn h1 h2 h3
    have hc := displaySortMenu_of_some s.cin s.cout n hn
    have hbody : sortMenuBody sortFuel s
        = some ({ s with cin := (s.cin.readInt).1,
                         cout := (displaySortMenu s.cin s.cout).2.2.put
                           (lit "Invalid choice. Try again.\n") }, n) := by
      simp only [sortMenuBody, hc.1, hc.2, NAME, TYPE, BACK_TO_MAIN]
      simp [h1, h2, h3]
    refine ⟨_, hbody, rfl, rfl, rfl, ?_⟩
    simp only [sortMenuLoop, hbody, BACK_TO_MAIN]
    simp [h3]
  · intro sortFuel fuel s h
    have hc := hback s.cin s.cout h
    have hbody : sortMenuBody sortFuel s
        = some ({ s with cin := (displaySortMenu s.cin s.cout).2.1,
                         cout := (displaySortMenu s.cin s.cout).2.2.put
                           (lit "Returning to main menu...\n") }, BACK_TO_MAIN) := by
      simp only [sortMenuBody, hc]
      simp [NAME, TYPE, BACK_TO_MAIN]
    refine ⟨_, hbody, rfl, rfl, ?_⟩
    simp [sortMenuLoop, hbody]

/-- C14, the claim as stated fails: on the input "abc" and a newline the
extraction fails, nothing like the number 3 is read, yet `displaySortMenu`
returns BACK_TO_MAIN and the submenu loop ends after this one pass, with
"Returning to main menu..." written and the line discarded. -/
theorem displaySortMenu_back_on_failed_read :
    (IStream.readInt { buf := lit "abc\n" }).2 = none ∧
    (displaySortMenu { buf := lit "abc\n" } {}).1 = BACK_TO_MAIN ∧
    ¬ ((displaySortMenu { buf := lit "abc\n" } {}).1 = BACK_TO_MAIN →
        (IStream.readInt { buf := lit "abc\n" }).2 = some 3) ∧
    sortMenuLoop 10 1 { army := sampleArmy, cin := { buf := lit "abc\n" } }
      = some { army := sampleArmy, cin := { buf := [] },
               cout := (displaySortMenu { buf := lit "abc\n" } {}).2.2.put
                 (lit "Returning to main menu...\n") } := by
  refine ⟨by decide, by decide, by decide, ?_⟩
  have h1 : (displaySortMenu { buf := lit "abc\n" } {}).1 = BACK_TO_MAIN := by decide
  have hc := (displaySortMenu_of_none { buf := lit "abc\n" } {} (by decide)).2
  have hi : (IStream.ignore 10000 '\n'.toNat
      (IStream.clear (IStream.readInt { buf := lit "abc\n" }).1)) = { buf := [] } := by decide
  have hb : sortMenuBody 10 { army := sampleArmy, cin := { buf := lit "abc\n" } }
      = some ({ army := sampleArmy,
                cin := (displaySortMenu { buf := lit "abc\n" } {}).2.1,
                cout := (displaySortMenu { buf := lit "abc\n" } {}).2.2.put
                  (lit "Returning to main menu...\n") }, BACK_TO_MAIN) := by
    simp only [sortMenuBody, h1]
    simp [NAME, TYPE, BACK_TO_MAIN]
  rw [hc, hi] at hb
  simp only [sortMenuLoop, hb]
  simp

theorem readChoice_of_none (s : Run) (h : (s.cin.readInt).2 = none) :
    readChoice s
      = ({ s with cin := ((s.cin.readInt).1.clear).ignore 10000 '\n'.toNat,
                  cout := s.cout.put (lit "Invalid input. Please enter a valid option.\n") },
         0) := by
  have hf := (readInt_fail_iff s.cin).2 h
  simp [readChoice, hf]

theorem readChoice_of_some (s : Run) (n : Int) (h : (s.cin.readInt).2 = some n) :
    readChoice s = ({ s with cin := (s.cin.readInt).1 }, n) := by
  have hf : ¬ (s.cin.readInt).1.fail = true := by
    intro hf
    rw [(readInt_fail_iff s.cin).1 hf] at h
    exact absurd h (by simp)
  simp [readChoice, hf, h]

theorem mainBody_choice (sortFuel menuFuel : Nat) (s s1 : Run) (c : Int)
    (h : mainBody sortFuel menuFuel s = some (s1, c)) :
    c = (readChoice { s with cout := displayMenu s.cout }).2 := by
  unfold mainBody at h
  simp only [] at h
  split_ifs at h
  · simp only [Option.some.injEq, Prod.mk.injEq] at h; exact h.2.symm
  · cases hl : sortMenuLoop sortFuel menuFuel (readChoice { s with cout := displayMenu s.cout }).1 with
    | none => rw [hl] at h; simp at h
    | some s2 =>
      rw [hl] at h
      simp only [Option.map_some', Option.some.injEq, Prod.mk.injEq] at h
      exact h.2.symm
  · simp only [Option.some.injEq, Prod.mk.injEq] at h; exact h.2.symm
  · simp only [Option.some.injEq, Prod.mk.injEq] at h; exact h.2.symm
  · simp only [Option.some.injEq, Prod.mk.injEq] at h; exact h.2.symm

theorem loadFromFile_fresh_returns (file : Option (List CppString)) (filename : CppString) :
    ∃ army cerr, Army.loadFromFile file filename {} {} = some (army, cerr) := by
  cases file with
  | none => exact ⟨_, _, rfl⟩
  | some tokens =>
    obtain ⟨a1, hl, _, _⟩ := loadLoop_spec tokens {} wellFormed_fresh
    exact ⟨a1, {}, by simp [Army.loadFromFile, hl]⟩

/-! ## Every statement only appends to the output -/

theorem setw_out (n : Nat) (os : OStream) : (os.setw n).out = os.out := rfl

theorem setfill_out (c : Nat) (os : OStream) : (os.setfill c).out = os.out := rfl

theorem left_out (os : OStream) : os.left.out = os.out := rfl

theorem prefix_put {l : List Nat} (t : CppString) {os : OStream} (h : List.IsPrefix l os.out) :
    List.IsPrefix l (os.put t).out := by
  unfold OStream.put
  exact h.trans (List.prefix_append _ _)

theorem prefix_rule {l : List Nat} {os : OStream} (h : List.IsPrefix l os.out) :
    List.IsPrefix l (rule os).out := by
  rw [rule_out]
  exact h.trans (List.prefix_append _ _)

theorem prefix_display {l : List Nat} (c : Creature) {os : OStream}
    (h : List.IsPrefix l os.out) : List.IsPrefix l (c.display os).out := by
  unfold Creature.display
  simp only []
  repeat first
    | exact h
    | apply prefix_put
    | rw [setw_out]
    | rw [setfill_out]
    | rw [left_out]

theorem prefix_display_fold {l : List Nat} (f : Nat → Creature) (is : List Nat) :
    ∀ os : OStream, List.IsPrefix l os.out →
      List.IsPrefix l (List.foldl (fun os i => (f i).display os) os is).out := by
  induction is with
  | nil => intro os h; exact h
  | cons i is ih =>
    intro os h
    rw [List.foldl_cons]
    exact ih _ (prefix_display (f i) h)

theorem prefix_printCreatures {l : List Nat} (a : Army) {os : OStream}
    (h : List.IsPrefix l os.out) : List.IsPrefix l (a.printCreatures os).out := by
  unfold Army.printCreatures forLoop
  simp only []
  apply prefix_rule
  apply prefix_display_fold
  repeat first
    | exact h
    | apply prefix_put
    | apply prefix_rule
    | rw [setw_out]
    | rw [setfill_out]
    | rw [left_out]

theorem prefix_search_fold {l : List Nat} (a : Army) (q : CppString) (is : List Nat) :
    ∀ s : OStream × Bool, List.IsPrefix l s.1.out →
      List.IsPrefix l (List.foldl (fun s i => Army.searchBody a q i s) s is).1.out := by
  induction is with
  | nil => intro s h; exact h
  | cons i is ih =>
    intro s h
    rw [List.foldl_cons]
    apply ih
    unfold Army.searchBody
    split_ifs
    · exact prefix_display _ h
    · exact h

theorem prefix_searchCreature {l : List Nat} (q : CppString) (a : Army) {os : OStream}
    (h : List.IsPrefix l os.out) : List.IsPrefix l (a.searchCreature q os).out := by
  have h1 : List.IsPrefix l (rule (os.put (lit "\nMatching Creatures:\n"))).out :=
    prefix_rule (prefix_put _ h)
  have h2 := prefix_search_fold a q (List.range a.count.toNat)
    (rule (os.put (lit "\nMatching Creatures:\n")), false) h1
  unfold Army.searchCreature forLoop
  simp only []
  apply prefix_rule
  split_ifs
  · exact prefix_put _ h2
  · exact h2

theorem prefix_sortCreatures {l : List Nat} (fuel : Nat) (option : Int) (a a1 : Army)
    (os os1 : OStream) (hl : List.IsPrefix l os.out)
    (h : Army.sortCreatures fuel option a os = some (a1, os1)) :
    List.IsPrefix l os1.out := by
  unfold Army.sortCreatures at h
  cases hp : Army.sortedPointers fuel option a with
  | none => rw [hp] at h; simp at h
  | some p =>
    rw [hp] at h
    simp only [Option.some.injEq, Prod.mk.injEq] at h
    rw [← h.2]
    unfold forLoop
    apply prefix_rule
    apply prefix_display_fold (fun i => a.get (p.getD i 0))
    exact prefix_rule (prefix_put _ hl)

theorem prefix_displaySortMenu {l : List Nat} (cin : IStream) {cout : OStream}
    (h : List.IsPrefix l cout.out) :
    List.IsPrefix l (displaySortMenu cin cout).2.2.out := by
  have h1 : List.IsPrefix l
      (((((cout.put (lit "\nSort Menu:\n")).put (lit "1. Sort by Name\n")).put
        (lit "2. Sort by Type\n")).put (lit "3. Go Back to Main Menu\n")).put
        (lit "Enter choice: ")).out :=
    prefix_put _ (prefix_put _ (prefix_put _ (prefix_put _ (prefix_put _ h))))
  unfold displaySortMenu
  simp only []
  split_ifs <;> exact h1

theorem prefix_sortMenuBody {l : List Nat} (sortFuel : Nat) (s s1 : Run) (c : Int)
    (hl : List.IsPrefix l s.cout.out) (h : sortMenuBody sortFuel s = some (s1, c)) :
    List.IsPrefix l s1.cout.out := by
  have hd := prefix_displaySortMenu s.cin hl
  unfold sortMenuBody at h
  simp only [] at h
  split_ifs at h
  · cases hs : Army.sortCreatures sortFuel (displaySortMenu s.cin s.cout).1 s.army
        (displaySortMenu s.cin s.cout).2.2 with
    | none => rw [hs] at h; simp at h
    | some r =>
      rw [hs] at h
      simp only [Option.map_some', Option.some.injEq, Prod.mk.injEq] at h
      rw [← h.1]
      exact prefix_sortCreatures _ _ _ r.1 _ r.2 hd hs
  · simp only [Option.some.injEq, Prod.mk.injEq] at h
    rw [← h.1]
    exact prefix_put _ hd
  · simp only [Option.some.injEq, Prod.mk.injEq] at h
    rw [← h.1]
    exact prefix_put _ hd

theorem prefix_sortMenuLoop {l : List Nat} (sortFuel : Nat) :
    ∀ (fuel : Nat) (s s1 : Run), List.IsPrefix l s.cout.out →
      sortMenuLoop sortFuel fuel s = some s1 → List.IsPrefix l s1.cout.out := by
  intro fuel
  induction fuel with
  | zero => intro s s1 _ h; simp [sortMenuLoop] at h
  | succ fuel ih =>
    intro s s1 hl h
    unfold sortMenuLoop at h
    cases hb : sortMenuBody sortFuel s with
    | none => rw [hb] at h; simp at h
    | some r =>
      rw [hb] at h
      simp only [] at h
      have hp := prefix_sortMenuBody sortFuel s r.1 r.2 hl hb
      split_ifs at h
      · exact ih _ _ hp h
      · simp only [Option.some.injEq] at h
        rw [← h]
        exact hp

theorem prefix_readChoice {l : List Nat} (s : Run) (h : List.IsPrefix l s.cout.out) :
    List.IsPrefix l (readChoice s).1.cout.out := by
  unfold readChoice
  simp only []
  split_ifs
  · exact prefix_put _ h
  · exact h

theorem displayMenu_out (os : OStream) (hw : os.width = 0) :
    (displayMenu os).out = os.out ++ menuText ∧ (displayMenu os).width = 0 := by
  have e : menuText = lit "\nMenu:\n" ++ (lit "1. Print Creatures\n"
      ++ (lit "2. Sort Creatures\n" ++ (lit "3. Search Creatures\n"
      ++ (lit "4. Exit\n" ++ lit "Enter choice: ")))) := by decide
  rw [e]
  simp [displayMenu, OStream.put, hw]

/-- Every pass of the loop of `main` that returns leaves an output that
starts with what `displayMenu` wrote at the start of the pass. -/
theorem mainBody_prefix (sortFuel menuFuel : Nat) (s s1 : Run) (c : Int)
    (h : mainBody sortFuel menuFuel s = some (s1, c)) :
    List.IsPrefix (displayMenu s.cout).out s1.cout.out := by
  have hr : List.IsPrefix (displayMenu s.cout).out
      (readChoice { s with cout := displayMenu s.cout }).1.cout.out :=
    prefix_readChoice _ (List.prefix_refl _)
  unfold mainBody at h
  simp only [] at h
  split_ifs at h
  · simp only [Option.some.injEq, Prod.mk.injEq] at h
    rw [← h.1]
    exact prefix_printCreatures _ hr
  · cases hl : sortMenuLoop sortFuel menuFuel
        (readChoice { s with cout := displayMenu s.cout }).1 with
    | none => rw [hl] at h; simp at h
    | some s2 =>
      rw [hl] at h
      simp only [Option.map_some', Option.some.injEq, Prod.mk.injEq] at h
      rw [← h.1]
      exact prefix_sortMenuLoop sortFuel menuFuel _ s2 hr hl
  · simp only [Option.some.injEq, Prod.mk.injEq] at h
    rw [← h.1]
    exact prefix_searchCreature _ _ (prefix_put _ hr)
  · simp only [Option.some.injEq, Prod.mk.injEq] at h
    rw [← h.1]
    exact prefix_put _ hr
  · simp only [Option.some.injEq, Prod.mk.injEq] at h
    rw [← h.1]
    exact prefix_put _ hr

theorem mainBody_prompts (sortFuel menuFuel : Nat) (t t1 : Run) (c : Int)
    (hw : t.cout.width = 0) (h : mainBody sortFuel menuFuel t = some (t1, c)) :
    ∃ rest, t1.cout.out = t.cout.out ++ menuText ++ rest := by
  obtain ⟨rest, hr⟩ := mainBody_prefix sortFuel menuFuel t t1 c h
  rw [(displayMenu_out t.cout hw).1] at hr
  exact ⟨rest, hr.symm⟩

theorem put_width (t : CppString) (os : OStream) : (os.put t).width = 0 := rfl

theorem mainBody_of_none (sortFuel menuFuel : Nat) (s : Run) (h : (s.cin.readInt).2 = none) :
    mainBody sortFuel menuFuel s
      = some ({ s with
                cin := ((s.cin.readInt).1.clear).ignore 10000 '\n'.toNat,
                cout := ((displayMenu s.cout).put
                    (lit "Invalid input. Please enter a valid option.\n")).put
                  (lit "Invalid choice. Try again.\n") }, 0) := by
  have hr := readChoice_of_none { s with cout := displayMenu s.cout } h
  simp only [mainBody, hr, PRINT, SORT, SEARCH, EXIT]
  simp

theorem mainBody_of_other (sortFuel menuFuel : Nat) (s : Run) (n : Int)
    (h : (s.cin.readInt).2 = some n) (hn : n < 1 ∨ 4 < n) :
    mainBody sortFuel menuFuel s
      = some ({ s with
                cin := (s.cin.readInt).1,
                cout := (displayMenu s.cout).put (lit "Invalid choice. Try again.\n") },
              n) := by
  have hr := readChoice_of_some { s with cout := displayMenu s.cout } n h
  have h1 : n ≠ 1 := by omega
  have h2 : n ≠ 2 := by omega
  have h3 : n ≠ 3 := by omega
  have h4 : n ≠ 4 := by omega
  simp only [mainBody, hr, PRINT, SORT, SEARCH, EXIT]
  simp [h1, h2, h3, h4]

theorem mainBody_of_exit (sortFuel menuFuel : Nat) (s : Run)
    (h : (s.cin.readInt).2 = some 4) :
    mainBody sortFuel menuFuel s
      = some ({ s with
                cin := (s.cin.readInt).1,
                cout := (displayMenu s.cout).put (lit "Exiting program...\n") }, EXIT) := by
  have hr := readChoice_of_some { s with cout := displayMenu s.cout } 4 h
  simp only [mainBody, hr, PRINT, SORT, SEARCH, EXIT]
  simp

theorem mainBody_of_print (sortFuel menuFuel : Nat) (s : Run)
    (h : (s.cin.readInt).2 = some 1) :
    mainBody sortFuel menuFuel s
      = some ({ s with
                cin := (s.cin.readInt).1,
                cout := s.army.printCreatures (displayMenu s.cout) }, PRINT) := by
  have hr := readChoice_of_some { s with cout := displayMenu s.cout } 1 h
  simp only [mainBody, hr, PRINT, SORT, SEARCH, EXIT]
  simp

theorem mainLoop_step (sortFuel menuFuel fuel : Nat) (s s1 : Run) (c : Int)
    (h : mainBody sortFuel menuFuel s = some (s1, c)) :
    mainLoop sortFuel menuFuel (fuel + 1) s
      = if c = EXIT then some s1 else mainLoop sortFuel menuFuel fuel s1 := by
  simp only [mainLoop, h]
  split_ifs <;> simp_all

/-- C15 (as amended): in the main menu, on a stream with no pending width,
when the extraction `cin >> choice` fails the pass writes the menu,
"Invalid input. Please enter a valid option." and "Invalid choice. Try
again.", discards the line and sets `choice = 0`; when a number outside
1..4 is read the pass writes the menu and "Invalid choice. Try again.". In
both cases the army and `std::cerr` are as before, the loop runs another
pass on the state reached, and that pass writes the menu again. The choice
is EXIT exactly when the number read is 4; the loop ends after a pass with
`choice = EXIT` and goes on otherwise; every pass that returns has written
the menu first. When `main` returns it returns 0, and it does return on the
input "4". -/
theorem main_menu_invalid (sortFuel menuFuel : Nat) (s : Run) (hw : s.cout.width = 0) :
    ((s.cin.readInt).2 = none →
      ∃ s1 : Run, mainBody sortFuel menuFuel s = some (s1, 0) ∧
        s1.army = s.army ∧ s1.cerr = s.cerr ∧
        s1.cin = ((s.cin.readInt).1.clear).ignore 10000 '\n'.toNat ∧
        s1.cout = ((displayMenu s.cout).put
            (lit "Invalid input. Please enter a valid option.\n")).put
          (lit "Invalid choice. Try again.\n") ∧
        s1.cout.out = s.cout.out ++ menuText
          ++ lit "Invalid input. Please enter a valid option.\n"
          ++ lit "Invalid choice. Try again.\n" ∧
        (∀ fuel, mainLoop sortFuel menuFuel (fuel + 1) s
          = mainLoop sortFuel menuFuel fuel s1) ∧
        (∀ (s2 : Run) (c2 : Int), mainBody sortFuel menuFuel s1 = some (s2, c2) →
          ∃ rest, s2.cout.out = s1.cout.out ++ menuText ++ rest)) ∧
    (∀ n : Int, (s.cin.readInt).2 = some n → (n < 1 ∨ 4 < n) →
      ∃ s1 : Run, mainBody sortFuel menuFuel s = some (s1, n) ∧
        s1.army = s.army ∧ s1.cerr = s.cerr ∧ s1.cin = (s.cin.readInt).1 ∧
        s1.cout = (displayMenu s.cout).put (lit "Invalid choice. Try again.\n") ∧
        s1.cout.out = s.cout.out ++ menuText ++ lit "Invalid choice. Try again.\n" ∧
        (∀ fuel, mainLoop sortFuel menuFuel (fuel + 1) s
          = mainLoop sortFuel menuFuel fuel s1) ∧
        (∀ (s2 : Run) (c2 : Int), mainBody sortFuel menuFuel s1 = some (s2, c2) →
          ∃ rest, s2.cout.out = s1.cout.out ++ menuText ++ rest)) ∧
    ((s.cin.readInt).2 = some 4 →
      ∃ s1 : Run, mainBody sortFuel menuFuel s = some (s1, EXIT) ∧
        s1.army = s.army ∧ s1.cerr = s.cerr ∧ s1.cin = (s.cin.readInt).1 ∧
        s1.cout.out = s.cout.out ++ menuText ++ lit "Exiting program...\n" ∧
        (∀ fuel, mainLoop sortFuel menuFuel (fuel + 1) s = some s1)) ∧
    (∀ (s1 : Run) (c : Int), mainBody sortFuel menuFuel s = some (s1, c) →
      (c = EXIT ↔ (s.cin.readInt).2 = some 4)) ∧
    (∀ (fuel : Nat) (s1 : Run) (c : Int), mainBody sortFuel menuFuel s = some (s1, c) →
      mainLoop sortFuel menuFuel (fuel + 1) s
        = if c = EXIT then some s1 else mainLoop sortFuel menuFuel fuel s1) ∧
    (∀ (s1 : Run) (c : Int), mainBody sortFuel menuFuel s = some (s1, c) →
      ∃ rest, s1.cout.out = s.cout.out ++ menuText ++ rest) ∧
    (∀ (fuel : Nat) (file : Option (List CppString)) (input : List Nat) (code : Int)
        (sfin : Run),
      main sortFuel menuFuel fuel file input = some (code, sfin) → code = 0) ∧
    (∀ file : Option (List CppString), ∃ sfin : Run,
      main sortFuel menuFuel 1 file (lit "4\n") = some (0, sfin)) := by
  have hmenu := (displayMenu_out s.cout hw).1
  have hmw := (displayMenu_out s.cout hw).2
  refine ⟨?_, ?_, ?_, ?_, ?_, ?_, ?_, ?_⟩
  · intro h
    have hb := mainBody_of_none sortFuel menuFuel s h
    refine ⟨_, hb, rfl, rfl, rfl, rfl, ?_, ?_, ?_⟩
    · show (((displayMenu s.cout).put _).put _).out = _
      rw [put_out _ _ (put_width _ _), put_out _ _ hmw, hmenu]
    · intro fuel
      rw [mainLoop_step sortFuel menuFuel fuel s _ 0 hb]
      simp [EXIT]
    · intro s2 c2 h2
      exact mainBody_prompts sortFuel menuFuel _ s2 c2 (put_width _ _) h2
  · intro n h hn
    have hb := mainBody_of_other sortFuel menuFuel s n h hn
    refine ⟨_, hb, rfl, rfl, rfl, rfl, ?_, ?_, ?_⟩
    · show ((displayMenu s.cout).put _).out = _
      rw [put_out _ _ hmw, hmenu]
    · intro fuel
      rw [mainLoop_step sortFuel menuFuel fuel s _ n hb]
      have h4 : n ≠ 4 := by omega
      simp [EXIT, h4]
    · intro s2 c2 h2
      exact mainBody_prompts sortFuel menuFuel _ s2 c2 (put_width _ _) h2
  · intro h
    have hb := mainBody_of_exit sortFuel menuFuel s h
    refine ⟨_, hb, rfl, rfl, rfl, ?_, ?_⟩
    · show ((displayMenu s.cout).put _).out = _
      rw [put_out _ _ hmw, hmenu]
    · intro fuel
      rw [mainLoop_step sortFuel menuFuel fuel s _ EXIT hb]
      simp
  · intro s1 c h
    have hc := mainBody_choice sortFuel menuFuel s s1 c h
    cases hr : (s.cin.readInt).2 with
    | none =>
      rw [readChoice_of_none { s with cout := displayMenu s.cout } hr] at hc
      simp only [hc, EXIT]
      simp
    | some n =>
      rw [readChoice_of_some { s with cout := displayMenu s.cout } n hr] at hc
      simp only [hc, EXIT]
      simp
  · intro fuel s1 c h
    exact mainLoop_step sortFuel menuFuel fuel s s1 c h
  · intro s1 c h
    exact mainBody_prompts sortFuel menuFuel s s1 c hw h
  · intro fuel file input code sfin h
    unfold main at h
    cases hl : Army.loadFromFile file (lit "creatures.txt") {} {} with
    | none => rw [hl] at h; simp at h
    | some r =>
      rw [hl] at h
      simp only [] at h
      cases hm : mainLoop sortFuel menuFuel fuel
          { army := r.1, cout := {}, cerr := r.2, cin := { buf := input } } with
      | none => rw [hm] at h; simp at h
      | some t =>
        rw [hm] at h
        simp only [Option.some.injEq, Prod.mk.injEq] at h
        exact h.1.symm
  · intro file
    obtain ⟨army, cerr, hl⟩ := loadFromFile_fresh_returns file (lit "creatures.txt")
    have h4 : (IStream.readInt { buf := lit "4\n" }).2 = some 4 := by decide
    have hb := mainBody_of_exit sortFuel menuFuel
      { army := army, cout := {}, cerr := cerr, cin := { buf := lit "4\n" } } h4
    have hm := mainLoop_step sortFuel menuFuel 0 _ _ _ hb
    rw [if_pos rfl] at hm
    simp only [main, hl, hm]
    exact ⟨_, rfl⟩

/-- A pass of the loop of `main` on the sample army with the input lines "x",
"7" and "4": the read of "x" fails, the pass writes the menu and the two
messages and the loop goes on; the whole run makes two invalid passes, then
exits with the value 0. -/
theorem main_menu_invalid_witness :
    ({} : OStream).width = 0 ∧
    (IStream.readInt { buf := lit "x\n7\n4\n" }).2 = none ∧
    (∃ s1 : Run, mainBody 10 10 { army := sampleArmy, cin := { buf := lit "x\n7\n4\n" } }
        = some (s1, 0) ∧
      s1.army = sampleArmy ∧ s1.cin = { buf := lit "7\n4\n" } ∧
      s1.cout.out = menuText ++ lit "Invalid input. Please enter a valid option.\n"
        ++ lit "Invalid choice. Try again.\n") ∧
    (main 10 10 3 (some sampleTokens) (lit "x\n7\n4\n")).map
        (fun r => (r.1, r.2.army, r.2.cin))
      = some (0, sampleArmy, { buf := lit "\n" }) ∧
    (main 10 10 2 (some sampleTokens) (lit "x\n7\n4\n")).isNone = true := by
  have h1 : (IStream.readInt { buf := lit "x\n7\n4\n" }).2 = none := by decide
  obtain ⟨s1, hb, ha, _, hc, _, ho, _⟩ := (main_menu_invalid 10 10
    { army := sampleArmy, cin := { buf := lit "x\n7\n4\n" } } rfl).1 h1
  refine ⟨rfl, h1, ⟨s1, hb, ha, ?_, ?_⟩, by decide, by decide⟩
  · rw [hc]; decide
  · rw [ho]; rfl

/-- C15, the claim as stated fails: the input token "1x" is not numeric, yet
the extraction reads the number 1 from it, the pass calls `printCreatures`
(the output is the menu followed by the table) and "x" stays in the stream;
likewise the run on the token "4x" ends the loop. -/
theorem main_menu_numeric_prefix :
    (IStream.readString { buf := lit "1x\n" }).2 = lit "1x" ∧
    specNumeric (lit "1x") = false ∧
    (IStream.readInt { buf := lit "1x\n" }) = ({ buf := lit "x\n" }, some 1) ∧
    mainBody 10 10 { army := sampleArmy, cin := { buf := lit "1x\n" } }
      = some ({ army := sampleArmy, cin := { buf := lit "x\n" },
                cout := sampleArmy.printCreatures (displayMenu {}) }, PRINT) ∧
    (sampleArmy.printCreatures (displayMenu {})).out
      = menuText ++ lit "\n" ++ ruleLine
        ++ lit "| Name           | Type           |\n" ++ ruleLine
        ++ (lit "| Dragon         | Flying         |\n"
          ++ lit "| Centaur        | Ground         |\n"
          ++ lit "| Parrot         | Flying         |\n") ++ ruleLine ∧
    specNumeric (lit "4x") = false ∧
    (main 10 10 1 (some sampleTokens) (lit "4x\n")).map (fun r => (r.1, r.2.cin))
      = some (0, { buf := lit "x\n" }) := by
  have hr : (IStream.readInt { buf := lit "1x\n" }) = ({ buf := lit "x\n" }, some 1) := by
    decide
  have hb := mainBody_of_print 10 10 { army := sampleArmy, cin := { buf := lit "1x\n" } }
    (by rw [hr])
  have hwf : sampleArmy.wellFormed := by simp [Army.wellFormed, sampleArmy, MAX_CREATURES]
  have hm := displayMenu_out {} rfl
  have hp := printCreatures_out sampleArmy (displayMenu {}) hwf hm.2
  have hrows : rows sampleArmy.records = lit "| Dragon         | Flying         |\n"
      ++ lit "| Centaur        | Ground         |\n"
      ++ lit "| Parrot         | Flying         |\n" := by decide
  refine ⟨by decide, by decide, hr, ?_, ?_, by decide, by decide⟩
  · rw [hb, hr]
  · rw [hp, hm.1, hrows]
    rfl

end Lab3
